import Mathlib

set_option maxHeartbeats 1000000
set_option maxRecDepth 8000

/-!
Formal model of `src/app.py` (piano-sheets-db).

The service is a Flask app over two remotely stored files: a JSON song
catalog and a JavaScript-ish favorites file.  This development models, from
the source:

* the tolerant favorites parser of `get_all_favorites` (regex extraction,
  line-comment stripping, quote normalization, trailing-comma removal,
  strict JSON decoding),
* the favorites serializer of `update_user_favorites`,
* the request handlers for favorites, search, get-by-id and stats.

Python strings are modelled as Lean `String`/`List Char`.  Python's
`json.loads` is modelled by a fueled recursive-descent parser (`pParse`)
following CPython's pure-Python `json.scanner`/`json.decoder`: strict mode
(raw control characters in strings refused), `NaN`/`Infinity` accepted,
duplicate object keys last-wins with first-position ordering.  Number
tokens are kept as their source text (the service never inspects them
numerically).  The remote store is abstracted as `StoreSt`: not configured,
fetch error, or a fetched text; `update_file` writes always succeed in the
model (write conflicts are outside the claims considered here).

All recursive text functions take explicit fuel, spending one unit per
step; every entry point supplies `length + 1` units.  Each step of each
scanner consumes at least one input character (for the JSON parser, each
recursive call is paid by a distinct consumed character, with the opening
bracket or brace paying for the mode switch and the closing one for the
first element), so `length + 1` units never run out on an input the
modelled Python code would accept.
-/

/-- Characters that are awkward to spell literally; named once. -/
def qC : Char := Char.ofNat 34

def apC : Char := Char.ofNat 39

def bsC : Char := Char.ofNat 92

def lbC : Char := Char.ofNat 123

def rbC : Char := Char.ofNat 125

def vtC : Char := Char.ofNat 11

def ffC : Char := Char.ofNat 12

/-- ASCII part of Python's regex `\s` and of `str.strip` whitespace. -/
def pyWsC (c : Char) : Bool :=
  c = ' ' || c = '\t' || c = '\n' || c = '\r' || c = vtC || c = ffC

/-- JSON whitespace as skipped by CPython's `json` module. -/
def jWsC (c : Char) : Bool :=
  c = ' ' || c = '\t' || c = '\n' || c = '\r'

def skipJWs (cs : List Char) : List Char := cs.dropWhile jWsC

/-- Does the literal `lit` occur at the head of `cs`? -/
def pLit (lit : String) (cs : List Char) : Bool := lit.data.isPrefixOf cs

/-- Is `pat` a contiguous sublist of `cs` (Python's `in` on strings)? -/
def isSubC (pat : List Char) : List Char → Bool
  | [] => pat.isEmpty
  | c :: t => pat.isPrefixOf (c :: t) || isSubC pat t

def isSub (pat s : String) : Bool := isSubC pat.data s.data

/-- Values as returned by `json.loads`: `None`, `bool`, numbers (kept as
their token text), `str`, `list`, `dict` (insertion-ordered pairs). -/
inductive JVal where
  | jnull : JVal
  | jbool : Bool → JVal
  | jnum : String → JVal
  | jstr : String → JVal
  | jarr : List JVal → JVal
  | jobj : List (String × JVal) → JVal

/-- Python dict assignment `d[k] = v`: replace in place if the key exists
(keeping its position), otherwise append. -/
def dictInsert (d : List (String × JVal)) (k : String) (v : JVal) :
    List (String × JVal) :=
  if d.any (fun p => p.1 = k) then
    d.map (fun p => if p.1 = k then (k, v) else p)
  else d ++ [(k, v)]

/-- `dict(pairs)`: sequential insertion, duplicate keys last-wins. -/
def dictFromPairs (ps : List (String × JVal)) : List (String × JVal) :=
  ps.foldl (fun d p => dictInsert d p.1 p.2) []

/-- Python `d.get(k, dflt)`. -/
def dictGetD (d : List (String × JVal)) (k : String) (dflt : JVal) : JVal :=
  match d.lookup k with
  | some v => v
  | none => dflt

/-- Hex digit value, for `\u` escapes. -/
def hexVal (c : Char) : Option Nat :=
  if c.isDigit then some (c.toNat - 48)
  else if 'a' ≤ c && c ≤ 'f' then some (c.toNat - 87)
  else if 'A' ≤ c && c ≤ 'F' then some (c.toNat - 55)
  else none

def hex4 (a b c d : Char) : Option Nat := do
  let x ← hexVal a
  let y ← hexVal b
  let z ← hexVal c
  let w ← hexVal d
  some (((x * 16 + y) * 16 + z) * 16 + w)

/-- Single-character JSON escapes (CPython `json.decoder.BACKSLASH`). -/
def escChar (c : Char) : Option Char :=
  if c = qC then some qC
  else if c = bsC then some bsC
  else if c = '/' then some '/'
  else if c = 'b' then some (Char.ofNat 8)
  else if c = 'f' then some ffC
  else if c = 'n' then some '\n'
  else if c = 'r' then some '\r'
  else if c = 't' then some '\t'
  else none

def surrChar (n : Nat) (n2 : Nat) : Char :=
  Char.ofNat (65536 + (n - 55296) * 1024 + (n2 - 56320))

/-- Body of `py_scanstring` (strict): read characters after the opening
quote up to the closing quote; raw control characters are refused; escapes
and `\u` (with surrogate-pair combination) are decoded.  A lone surrogate,
which Python would keep as an unpaired surrogate code unit, is forced
through `Char.ofNat` (the service never produces one). -/
def pJStringAux : Nat → List Char → List Char → Option (String × List Char)
  | 0, _, _ => none
  | Nat.succ _, _, [] => none
  | Nat.succ f, acc, c :: cs =>
    if c = qC then some (String.mk acc.reverse, cs)
    else if c = bsC then
      match cs with
      | [] => none
      | e :: cs2 =>
        if e = 'u' then
          match cs2 with
          | h1 :: h2 :: h3 :: h4 :: cs3 =>
            match hex4 h1 h2 h3 h4 with
            | none => none
            | some n =>
              if 55296 ≤ n && n ≤ 56319 then
                match cs3 with
                | x :: y :: h5 :: h6 :: h7 :: h8 :: cs4 =>
                  if x = bsC && y = 'u' then
                    match hex4 h5 h6 h7 h8 with
                    | some n2 =>
                      if 56320 ≤ n2 && n2 ≤ 57343 then
                        pJStringAux f (surrChar n n2 :: acc) cs4
                      else pJStringAux f (Char.ofNat n :: acc) cs3
                    | none => pJStringAux f (Char.ofNat n :: acc) cs3
                  else pJStringAux f (Char.ofNat n :: acc) cs3
                | _ => pJStringAux f (Char.ofNat n :: acc) cs3
              else pJStringAux f (Char.ofNat n :: acc) cs3
          | _ => none
        else
          match escChar e with
          | some d => pJStringAux f (d :: acc) cs2
          | none => none
    else if c.toNat < 32 then none
    else pJStringAux f (c :: acc) cs

def pJString (cs : List Char) : Option (String × List Char) :=
  pJStringAux (cs.length + 1) [] cs

/-- Optional fraction part `(\.\d+)?` of CPython's `NUMBER_RE`. -/
def pFrac : List Char → (List Char × List Char)
  | '.' :: r =>
    let ds := r.takeWhile Char.isDigit
    if ds.isEmpty then ([], '.' :: r) else ('.' :: ds, r.dropWhile Char.isDigit)
  | cs => ([], cs)

/-- Optional exponent part `([eE][-+]?\d+)?` of CPython's `NUMBER_RE`. -/
def pExp : List Char → (List Char × List Char)
  | c :: r =>
    if c = 'e' || c = 'E' then
      match r with
      | s :: r2 =>
        if s = '+' || s = '-' then
          let ds := r2.takeWhile Char.isDigit
          if ds.isEmpty then ([], c :: s :: r2)
          else (c :: s :: ds, r2.dropWhile Char.isDigit)
        else
          let ds := r.takeWhile Char.isDigit
          if ds.isEmpty then ([], c :: r)
          else (c :: ds, r.dropWhile Char.isDigit)
      | [] => ([], [c])
    else ([], c :: r)
  | [] => ([], [])

/-- CPython `NUMBER_RE`: `-?(0|[1-9]\d*)(\.\d+)?([eE][-+]?\d+)?`, returning
the matched token text and the rest. -/
def parseNumber (cs : List Char) : Option (String × List Char) :=
  let sp : List Char × List Char :=
    match cs with
    | '-' :: r => (['-'], r)
    | _ => ([], cs)
  match sp.2 with
  | c :: r =>
    if c = '0' then
      let fr := pFrac r
      let ex := pExp fr.2
      some (String.mk (sp.1 ++ [c] ++ fr.1 ++ ex.1), ex.2)
    else if c.isDigit then
      let ds := r.takeWhile Char.isDigit
      let r1 := r.dropWhile Char.isDigit
      let fr := pFrac r1
      let ex := pExp fr.2
      some (String.mk (sp.1 ++ [c] ++ ds ++ fr.1 ++ ex.1), ex.2)
    else none
  | [] => none

/-- Parsing modes of the fueled JSON scanner: a value, the members of an
object (entered after the opening quote of a key), or the elements of a
non-empty array (entered at a value start). -/
inductive PMode where
  | val : PMode
  | members : List (String × JVal) → PMode
  | elems : List JVal → PMode

/-- Fueled model of CPython's `json` scanner (`scan_once` / `JSONObject` /
`JSONArray`). -/
def pParse : Nat → PMode → List Char → Option (JVal × List Char)
  | 0, _, _ => none
  | Nat.succ f, PMode.val, cs =>
    match cs with
    | [] => none
    | c :: rest =>
      if c = qC then (pJString rest).map (fun p => (JVal.jstr p.1, p.2))
      else if c = lbC then
        match skipJWs rest with
        | [] => none
        | d :: r1 =>
          if d = rbC then some (JVal.jobj [], r1)
          else if d = qC then pParse f (PMode.members []) r1
          else none
      else if c = '[' then
        match skipJWs rest with
        | [] => none
        | d :: r1 =>
          if d = ']' then some (JVal.jarr [], r1)
          else pParse f (PMode.elems []) (d :: r1)
      else if pLit "true" cs then some (JVal.jbool true, cs.drop 4)
      else if pLit "false" cs then some (JVal.jbool false, cs.drop 5)
      else if pLit "null" cs then some (JVal.jnull, cs.drop 4)
      else
        match parseNumber cs with
        | some p => some (JVal.jnum p.1, p.2)
        | none =>
          if pLit "NaN" cs then some (JVal.jnum "NaN", cs.drop 3)
          else if pLit "Infinity" cs then some (JVal.jnum "Infinity", cs.drop 8)
          else if pLit "-Infinity" cs then some (JVal.jnum "-Infinity", cs.drop 9)
          else none
  | Nat.succ f, PMode.members acc, cs =>
    match pJString cs with
    | none => none
    | some (k, cs1) =>
      match skipJWs cs1 with
      | ':' :: cs2 =>
        match pParse f PMode.val (skipJWs cs2) with
        | none => none
        | some (v, cs3) =>
          match skipJWs cs3 with
          | [] => none
          | c :: cs4 =>
            if c = rbC then
              some (JVal.jobj (dictFromPairs (acc ++ [(k, v)])), cs4)
            else if c = ',' then
              match skipJWs cs4 with
              | [] => none
              | d :: cs5 =>
                if d = qC then pParse f (PMode.members (acc ++ [(k, v)])) cs5
                else none
            else none
      | _ => none
  | Nat.succ f, PMode.elems acc, cs =>
    match pParse f PMode.val cs with
    | none => none
    | some (v, cs1) =>
      match skipJWs cs1 with
      | [] => none
      | c :: cs2 =>
        if c = ']' then some (JVal.jarr (acc ++ [v]), cs2)
        else if c = ',' then pParse f (PMode.elems (acc ++ [v])) (skipJWs cs2)
        else none

/-- `json.loads`: skip leading whitespace, scan one value, require only
whitespace after it. -/
def jsonLoadsC (cs : List Char) : Option JVal :=
  match pParse (cs.length + 1) PMode.val (skipJWs cs) with
  | some (v, rest) => if skipJWs rest = [] then some v else none
  | none => none

/-- Model of `re.sub(r'//.*?\n', '', s)`: streaming left-to-right scan; a
`//` is removed together with everything up to and including the next
newline.  In comment state the candidate (starting `//`) is buffered
reversed; at end of input with no newline the candidate is emitted
unchanged (the regex then matches nowhere later either, newlines being
exhausted). -/
def rlcAux : Nat → List Char → Bool → List Char → List Char
  | 0, cs, inC, buf => if inC then buf.reverse ++ cs else cs
  | Nat.succ _, [], inC, buf => if inC then buf.reverse else []
  | Nat.succ f, c :: cs, inC, buf =>
    if inC then
      if c = '\n' then rlcAux f cs false []
      else rlcAux f cs true (c :: buf)
    else
      if c = '/' then
        match cs with
        | d :: cs2 =>
          if d = '/' then rlcAux f cs2 true [d, c]
          else c :: rlcAux f cs false []
        | [] => [c]
      else c :: rlcAux f cs false []

def rlc (cs : List Char) : List Char := rlcAux (cs.length + 1) cs false []

/-- Model of `s.replace(squote, dquote)` in `get_all_favorites`. -/
def sq2dq (cs : List Char) : List Char :=
  cs.map (fun c => if c = apC then qC else c)

/-- Model of `re.sub(r',(\s*[brace-or-bracket])', r'\1', s)`: a comma
followed by whitespace and a closing brace/bracket loses the comma; the
scan resumes after the bracket.  State `some ws` holds the (reversed)
whitespace seen since a pending comma. -/
def rtcAux : Nat → List Char → Option (List Char) → List Char
  | 0, cs, none => cs
  | 0, cs, some ws => ',' :: ws.reverse ++ cs
  | Nat.succ _, [], none => []
  | Nat.succ _, [], some ws => ',' :: ws.reverse
  | Nat.succ f, c :: cs, none =>
    if c = ',' then rtcAux f cs (some []) else c :: rtcAux f cs none
  | Nat.succ f, c :: cs, some ws =>
    if pyWsC c then rtcAux f cs (some (c :: ws))
    else if c = rbC || c = ']' then ws.reverse ++ c :: rtcAux f cs none
    else if c = ',' then ',' :: ws.reverse ++ rtcAux f cs (some [])
    else ',' :: ws.reverse ++ c :: rtcAux f cs none

def rtc (cs : List Char) : List Char := rtcAux (cs.length + 1) cs none

/-- Scan of the lazy regex body `[\s\S]*?` up to the first closing brace
immediately followed by a semicolon; the brace/semicolon are not part of
the returned body. -/
def favScanBody : Nat → List Char → Option (List Char)
  | 0, _ => none
  | Nat.succ _, [] => none
  | Nat.succ f, c :: cs =>
    if c = rbC then
      match cs with
      | d :: _ =>
        if d = ';' then some []
        else (favScanBody f cs).map (fun b => c :: b)
      | [] => none
    else (favScanBody f cs).map (fun b => c :: b)

/-- Attempt the tail of the pattern `favorites\s*=\s*(body);` at a position
just after the literal `favorites`.  Returns group 1 (braces included). -/
def tryFav (cs : List Char) : Option (List Char) :=
  match cs.dropWhile pyWsC with
  | c :: r =>
    if c = '=' then
      match r.dropWhile pyWsC with
      | d :: r2 =>
        if d = lbC then
          (favScanBody (r2.length + 1) r2).map (fun b => lbC :: b ++ [rbC])
        else none
      | [] => none
    else none
  | [] => none

/-- `re.search` for the favorites pattern: try each start position left to
right; the pattern starts with the literal `favorites`. -/
def findFavAux : Nat → List Char → Option (List Char)
  | 0, _ => none
  | Nat.succ _, [] => none
  | Nat.succ f, c :: cs =>
    if pLit "favorites" (c :: cs) then
      match tryFav ((c :: cs).drop 9) with
      | some b => some b
      | none => findFavAux f cs
    else findFavAux f cs

def findFav (cs : List Char) : Option (List Char) :=
  findFavAux (cs.length + 1) cs

/-- The pure parsing pipeline of `get_all_favorites` (src/app.py 83-99):
regex extraction, `//` comment removal, single-to-double quote
substitution, trailing-comma removal, strict JSON decode.  No regex match
or a decode failure yields the empty mapping (non-fatal). -/
def parseFavContent (content : String) : List (String × JVal) :=
  match findFav content.data with
  | none => []
  | some body =>
    match jsonLoadsC (rtc (sq2dq (rlc body))) with
    | some (JVal.jobj kvs) => kvs
    | _ => []

/-- Python truthiness of the `error` strings the handlers test with
`if error:` — `None` and the empty string are falsy. -/
def truthyE : Option String → Bool
  | none => false
  | some s => !(s = "")

/-- The remote store as the handlers see it: client not configured
(`repo is None`), a fetch that raises (message of the exception), or the
fetched file text. -/
inductive StoreSt where
  | notConfigured : StoreSt
  | err : String → StoreSt
  | ok : String → StoreSt

/-- `get_all_favorites` (src/app.py 67-102): fetch errors give the empty
dict plus a message; a fetched text goes through the tolerant parser and
never reports an error. -/
def get_all_favorites (st : StoreSt) : List (String × JVal) × Option String :=
  match st with
  | StoreSt.notConfigured => ([], some "GitHub not configured")
  | StoreSt.err e => ([], some e)
  | StoreSt.ok content => (parseFavContent content, none)

/-- `get_user_favorites` (src/app.py 104-109): on a truthy error the empty
list is returned with the error; otherwise `all_favs.get(user_id, [])`. -/
def get_user_favorites (st : StoreSt) (user_id : String) : JVal × Option String :=
  let p := get_all_favorites st
  if truthyE p.2 then (JVal.jarr [], p.2)
  else (dictGetD p.1 user_id (JVal.jarr []), none)

/-- Python `repr` for containers, fueled on structure size; the service
only ever stringifies strings from favorites lists, so the container cases
exist for totality of `pyStr`. -/
def pyReprF : Nat → JVal → String
  | 0, _ => ""
  | Nat.succ f, v =>
    match v with
    | JVal.jnull => "None"
    | JVal.jbool true => "True"
    | JVal.jbool false => "False"
    | JVal.jnum t => t
    | JVal.jstr s => String.mk (apC :: s.data ++ [apC])
    | JVal.jarr xs =>
      "[" ++ String.intercalate ", " (xs.map (pyReprF f)) ++ "]"
    | JVal.jobj kvs =>
      String.mk (lbC :: (String.intercalate ", "
        (kvs.map (fun p =>
          String.mk (apC :: p.1.data ++ [apC]) ++ ": " ++ pyReprF f p.2))).data
        ++ [rbC])

/-- Python `str()` as used by the serializer's f-string. -/
def pyStr (v : JVal) : String :=
  match v with
  | JVal.jnull => "None"
  | JVal.jbool true => "True"
  | JVal.jbool false => "False"
  | JVal.jnum t => t
  | JVal.jstr s => s
  | JVal.jarr xs => pyReprF (xs.length + 1) (JVal.jarr xs)
  | JVal.jobj kvs => pyReprF (kvs.length + 1) (JVal.jobj kvs)

/-- Iterating a favorites value in the serializer's comprehension
`[str-of song for song in favs]`: lists give elements, strings their
characters, dicts their keys; other values raise `TypeError`. -/
def pyElemStrs : JVal → Option (List String)
  | JVal.jarr xs => some (xs.map pyStr)
  | JVal.jstr s => some (s.data.map (fun c => String.mk [c]))
  | JVal.jobj kvs => some (kvs.map (fun p => p.1))
  | _ => none

/-- One serialized favorites entry with its trailing comma and newline:
two spaces, quoted uid, colon, bracketed comma-joined quoted ids. -/
def entryChars (u : String) (elems : List String) : List Char :=
  ' ' :: ' ' :: qC :: u.data ++ [qC, ':', ' ', '['] ++
    List.intercalate [',', ' '] (elems.map (fun s => qC :: s.data ++ [qC])) ++
    [']', ',', '\n']

/-- The serializer loop of `update_user_favorites` (src/app.py 126-129). -/
def serializeEntries : List (String × JVal) → Option (List Char)
  | [] => some []
  | (u, v) :: rest =>
    match pyElemStrs v with
    | none => none
    | some elems =>
      match serializeEntries rest with
      | none => none
      | some r => some (entryChars u elems ++ r)

/-- `s.rstrip(string-of-comma-and-newline)`. -/
def rstripCN (cs : List Char) : List Char :=
  (cs.reverse.dropWhile (fun c => c = ',' || c = '\n')).reverse

/-- `js_content` of `update_user_favorites` (src/app.py 126-130). -/
def jsContentOf (entries : List Char) : List Char :=
  rstripCN (("export const favorites = ").data ++ [lbC, '\n'] ++ entries) ++
    ['\n', rbC, ';', '\n']

/-- The `new_content` header (src/app.py 132-136), timestamp spliced in. -/
def headerText (ts : String) : List Char :=
  ("// Auto-generated favorites list\n// Multi-user support - each user has their own favorites\n// Updated: ").data ++
    ts.data ++ (" UTC\n\n").data

/-- `update_user_favorites` (src/app.py 111-148): refetch, reparse, assign
the user's list, serialize the whole mapping, commit.  The model's store
write always succeeds; serializing a non-iterable value raises and is
caught, returning `(False, message)`. -/
def update_user_favorites (st : StoreSt) (user_id : String)
    (favorites_list : JVal) (ts : String) : (Bool × Option String) × StoreSt :=
  match st with
  | StoreSt.notConfigured => ((false, some "GitHub not configured"), st)
  | StoreSt.err e => ((false, some e), st)
  | StoreSt.ok _ =>
    let p := get_all_favorites st
    if truthyE p.2 && isSub "not configured" (p.2.getD "") then
      ((false, p.2), st)
    else
      let allf := dictInsert p.1 user_id favorites_list
      match serializeEntries allf with
      | none => ((false, some "argument of type is not iterable"), st)
      | some entries =>
        ((true, none),
          StoreSt.ok (String.mk (headerText ts ++ jsContentOf entries)))

/-- Python `song_id in favorites` for a string needle: list membership by
`==` (a string equals only an equal string), substring test on strings,
key membership on dicts; `TypeError` otherwise. -/
def pyInStr (needle : String) : JVal → Option Bool
  | JVal.jarr xs =>
    some (xs.any (fun v =>
      match v with
      | JVal.jstr t => t = needle
      | _ => false))
  | JVal.jstr s => some (isSub needle s)
  | JVal.jobj kvs => some (kvs.any (fun p => p.1 = needle))
  | _ => none

/-- `favorites.append(song_id)`: lists only (`AttributeError` otherwise). -/
def pyAppendStr : JVal → String → Option JVal
  | JVal.jarr xs, s => some (JVal.jarr (xs ++ [JVal.jstr s]))
  | _, _ => none

/-- Remove the first element equal (as a string) to `s`. -/
def removeFirstStr : List JVal → String → List JVal
  | [], _ => []
  | x :: xs, s =>
    match x with
    | JVal.jstr t => if t = s then xs else x :: removeFirstStr xs s
    | _ => x :: removeFirstStr xs s

/-- `favorites.remove(song_id)`: lists only; `ValueError` when absent. -/
def pyRemoveStr : JVal → String → Option JVal
  | JVal.jarr xs, s =>
    if xs.any (fun v =>
        match v with
        | JVal.jstr t => t = s
        | _ => false) then
      some (JVal.jarr (removeFirstStr xs s))
    else none
  | _, _ => none

/-- Python `len`: lists, strings and dicts; `TypeError` otherwise. -/
def pyLen : JVal → Option Nat
  | JVal.jarr xs => some xs.length
  | JVal.jstr s => some s.length
  | JVal.jobj kvs => some kvs.length
  | _ => none

/-- An HTTP response: status code and the `jsonify` body. -/
structure Resp where
  status : Nat
  body : JVal

def natJ (n : Nat) : JVal := JVal.jnum (toString n)

def optStrJ : Option String → JVal
  | none => JVal.jnull
  | some s => JVal.jstr s

/-- Flask's handler for an uncaught exception (src/app.py 456-458). -/
def resp500internal : Resp :=
  ⟨500, JVal.jobj [("error", JVal.jstr "Internal server error")]⟩

/-- `get_favorites_route` (src/app.py 347-359): read the user's favorites;
on a truthy error not mentioning "not configured", reset to the empty
list; always answer 200 with `user_id`, `count`, `favorites`. -/
def get_favorites_route (st : StoreSt) (user_id : String) : Resp :=
  let p := get_user_favorites st user_id
  let favorites :=
    if truthyE p.2 && !(isSub "not configured" (p.2.getD "")) then JVal.jarr []
    else p.1
  match pyLen favorites with
  | none => resp500internal
  | some n =>
    ⟨200, JVal.jobj [("user_id", JVal.jstr user_id), ("count", natJ n),
      ("favorites", favorites)]⟩

/-- `add_favorite` (src/app.py 362-398).  `song_id` is the request's
`song_id` parameter (absent or a string; `if not song_id` also rejects the
empty string).  Returns the response and the store after the call. -/
def add_favorite (st : StoreSt) (user_id : String) (song_id : Option String)
    (ts : String) : Resp × StoreSt :=
  if !truthyE song_id then
    (⟨400, JVal.jobj [("error", JVal.jstr "song_id is required")]⟩, st)
  else
    if truthyE (get_user_favorites st user_id).2 then
      (⟨500, JVal.jobj [("error", optStrJ (get_user_favorites st user_id).2)]⟩, st)
    else
      match pyInStr (song_id.getD "") (get_user_favorites st user_id).1 with
      | none => (resp500internal, st)
      | some true =>
        (⟨200, JVal.jobj [("message", JVal.jstr "Already in favorites"),
          ("user_id", JVal.jstr user_id),
          ("favorites", (get_user_favorites st user_id).1)]⟩, st)
      | some false =>
        match pyAppendStr (get_user_favorites st user_id).1 (song_id.getD "") with
        | none => (resp500internal, st)
        | some favs =>
          if !(update_user_favorites st user_id favs ts).1.1 then
            (⟨500, JVal.jobj [("error",
              optStrJ (update_user_favorites st user_id favs ts).1.2)]⟩,
              (update_user_favorites st user_id favs ts).2)
          else
            match pyLen favs with
            | none => (resp500internal, (update_user_favorites st user_id favs ts).2)
            | some n =>
              (⟨200, JVal.jobj [("message", JVal.jstr "Added to favorites"),
                ("user_id", JVal.jstr user_id), ("count", natJ n),
                ("favorites", favs)]⟩, (update_user_favorites st user_id favs ts).2)

/-- `remove_favorite` (src/app.py 401-437). -/
def remove_favorite (st : StoreSt) (user_id : String)
    (song_id : Option String) (ts : String) : Resp × StoreSt :=
  if !truthyE song_id then
    (⟨400, JVal.jobj [("error", JVal.jstr "song_id is required")]⟩, st)
  else
    if truthyE (get_user_favorites st user_id).2 then
      (⟨500, JVal.jobj [("error", optStrJ (get_user_favorites st user_id).2)]⟩, st)
    else
      match pyInStr (song_id.getD "") (get_user_favorites st user_id).1 with
      | none => (resp500internal, st)
      | some true =>
        match pyRemoveStr (get_user_favorites st user_id).1 (song_id.getD "") with
        | none => (resp500internal, st)
        | some favs =>
          if !(update_user_favorites st user_id favs ts).1.1 then
            (⟨500, JVal.jobj [("error",
              optStrJ (update_user_favorites st user_id favs ts).1.2)]⟩,
              (update_user_favorites st user_id favs ts).2)
          else
            match pyLen favs with
            | none => (resp500internal, (update_user_favorites st user_id favs ts).2)
            | some n =>
              (⟨200, JVal.jobj [("message", JVal.jstr "Removed from favorites"),
                ("user_id", JVal.jstr user_id), ("count", natJ n),
                ("favorites", favs)]⟩, (update_user_favorites st user_id favs ts).2)
      | some false =>
        (⟨200, JVal.jobj [("message", JVal.jstr "Not in favorites"),
          ("user_id", JVal.jstr user_id),
          ("favorites", (get_user_favorites st user_id).1)]⟩, st)

/-- `get_songs_data` (src/app.py 24-65) with the fetch abstracted: the
configured-and-fetched text is decoded as strict JSON; a decode failure is
caught by the surrounding `except` and reported as a message. -/
def get_songs_data (st : StoreSt) : Except String JVal :=
  match st with
  | StoreSt.notConfigured =>
    Except.error "GitHub not configured - check GITHUB_TOKEN environment variable"
  | StoreSt.err e => Except.error e
  | StoreSt.ok content =>
    match jsonLoadsC content.data with
    | some v => Except.ok v
    | none => Except.error "Expecting value (JSON decode failure)"

/-- Python `str.lower`, ASCII range (the catalog fields are ASCII). -/
def pyLower (s : String) : String := String.mk (s.data.map Char.toLower)

/-- Python `str.strip()` over ASCII whitespace. -/
def pyStrip (s : String) : String :=
  String.mk (((s.data.dropWhile pyWsC).reverse.dropWhile pyWsC).reverse)

/-- Python `for x in v`: lists give elements, strings their characters (as
one-character strings), dicts their keys; `TypeError` otherwise. -/
def pyIterVals : JVal → Option (List JVal)
  | JVal.jarr xs => some xs
  | JVal.jstr s => some (s.data.map (fun c => JVal.jstr (String.mk [c])))
  | JVal.jobj kvs => some (kvs.map (fun p => JVal.jstr p.1))
  | _ => none

/-- `v.lower()` (`AttributeError` unless a string). -/
def asStrLower : JVal → Option String
  | JVal.jstr s => some (pyLower s)
  | _ => none

/-- The loop of `search_songs` (src/app.py 239-245): keep songs whose
lowered `title` or `artist` contains the query. -/
def searchFilter (q : String) : List JVal → Option (List JVal)
  | [] => some []
  | s :: rest =>
    match s with
    | JVal.jobj kvs =>
      match asStrLower (dictGetD kvs "title" (JVal.jstr "")),
            asStrLower (dictGetD kvs "artist" (JVal.jstr "")) with
      | some t, some a =>
        match searchFilter q rest with
        | some r => some (if isSub q t || isSub q a then s :: r else r)
        | none => none
      | _, _ => none
    | _ => none

/-- `search_songs` (src/app.py 226-251): the query is checked before any
catalog access; blank queries are a 400 no matter the catalog state. -/
def search_songs (st : StoreSt) (q : Option String) : Resp :=
  let query := pyStrip (pyLower (q.getD ""))
  if query = "" then
    ⟨400, JVal.jobj [("error", JVal.jstr "Query parameter \"q\" is required")]⟩
  else
    match get_songs_data st with
    | Except.error e => ⟨500, JVal.jobj [("error", JVal.jstr e)]⟩
    | Except.ok v =>
      match pyIterVals v with
      | none => resp500internal
      | some songs =>
        match searchFilter query songs with
        | none => resp500internal
        | some results =>
          ⟨200, JVal.jobj [("query", JVal.jstr query),
            ("count", natJ results.length), ("results", JVal.jarr results)]⟩

/-- The scan of `get_song` (src/app.py 219-222): first song whose `url`
contains `song_id` or ends with slash-plus-`song_id`.  `some (some s)` is a
hit, `some none` no hit, `none` an uncaught exception. -/
def scanSongs (sid : String) : List JVal → Option (Option JVal)
  | [] => some none
  | s :: rest =>
    match s with
    | JVal.jobj kvs =>
      let url := dictGetD kvs "url" (JVal.jstr "")
      match pyInStr sid url with
      | none => none
      | some true => some (some s)
      | some false =>
        match url with
        | JVal.jstr u =>
          if List.isSuffixOf ('/' :: sid.data) u.data then some (some s)
          else scanSongs sid rest
        | _ => none
    | _ => none

/-- `get_song` (src/app.py 211-224). -/
def get_song (st : StoreSt) (song_id : String) : Resp :=
  match get_songs_data st with
  | Except.error e => ⟨500, JVal.jobj [("error", JVal.jstr e)]⟩
  | Except.ok v =>
    match pyIterVals v with
    | none => resp500internal
    | some songs =>
      match scanSongs song_id songs with
      | none => resp500internal
      | some (some s) => ⟨200, s⟩
      | some none => ⟨404, JVal.jobj [("error", JVal.jstr "Song not found")]⟩

/-- Equality on the scalar values Python can hold as set members or dict
keys here (containers are rejected as unhashable before comparison).  The
numeric cross-type equalities Python grants (`True == 1`) are not modelled;
no claim below depends on them. -/
def scalarEq (a b : JVal) : Bool :=
  match a, b with
  | JVal.jnull, JVal.jnull => true
  | JVal.jbool x, JVal.jbool y => x = y
  | JVal.jnum x, JVal.jnum y => x = y
  | JVal.jstr x, JVal.jstr y => x = y
  | _, _ => false

/-- Python hashability of a decoded JSON value. -/
def hashable : JVal → Bool
  | JVal.jarr _ => false
  | JVal.jobj _ => false
  | _ => true

/-- `set.add` on the model's insertion-ordered set. -/
def setAdd (s : List JVal) (v : JVal) : List JVal :=
  if s.any (fun w => scalarEq w v) then s else s ++ [v]

/-- Is a number token a Python-falsy zero?  `NaN`/`Infinity` are truthy. -/
def isZeroTok (t : String) : Bool :=
  if t = "NaN" || t = "Infinity" || t = "-Infinity" then false
  else (t.data.takeWhile (fun c => !(c = 'e') && !(c = 'E'))).all
    (fun c => !c.isDigit || c = '0')

/-- Python truthiness of a decoded JSON value. -/
def pyTruthy : JVal → Bool
  | JVal.jnull => false
  | JVal.jbool b => b
  | JVal.jnum t => !isZeroTok t
  | JVal.jstr s => !(s = "")
  | JVal.jarr xs => !xs.isEmpty
  | JVal.jobj kvs => !kvs.isEmpty

/-- `difficulties[difficulty] = difficulties.get(difficulty, 0) + 1`. -/
def histInsert (h : List (JVal × Nat)) (k : JVal) : List (JVal × Nat) :=
  if h.any (fun p => scalarEq p.1 k) then
    h.map (fun p => if scalarEq p.1 k then (p.1, p.2 + 1) else p)
  else h ++ [(k, 1)]

/-- Add every element to a set, checking hashability (`TypeError`). -/
def addAllHashable (s : List JVal) : List JVal → Option (List JVal)
  | [] => some s
  | v :: vs =>
    if hashable v then addAllHashable (setAdd s v) vs else none

/-- Accumulator of the stats loop (src/app.py 302-318). -/
structure StatsAcc where
  artists : List JVal
  difficulties : List (JVal × Nat)
  categories : List JVal
  total_sheets : Nat

/-- One iteration of the stats loop over a song: the artist-set update
(`if artist and artist != 'Unknown Artist'`), the difficulty histogram
update (default bucket the string `Unknown`), the category-set update and
the sheet count; any `TypeError` (unhashable or non-iterable value) aborts
the handler into a 500. -/
def statsStep (acc : StatsAcc) (song : JVal) : Option StatsAcc :=
  match song with
  | JVal.jobj kvs =>
    match (if (pyTruthy (dictGetD kvs "artist" (JVal.jstr "Unknown")) &&
            !scalarEq (dictGetD kvs "artist" (JVal.jstr "Unknown"))
              (JVal.jstr "Unknown Artist")) then
            (if hashable (dictGetD kvs "artist" (JVal.jstr "Unknown")) then
              some (setAdd acc.artists (dictGetD kvs "artist" (JVal.jstr "Unknown")))
            else none)
          else some acc.artists) with
    | none => none
    | some arts =>
      if hashable (dictGetD kvs "difficulty" (JVal.jstr "Unknown")) then
        match pyIterVals (dictGetD kvs "categories" (JVal.jarr [])) with
        | none => none
        | some catVals =>
          match addAllHashable acc.categories catVals with
          | none => none
          | some cats =>
            match pyLen (dictGetD kvs "sheets" (JVal.jarr [])) with
            | none => none
            | some sheets =>
              some ⟨arts,
                histInsert acc.difficulties
                  (dictGetD kvs "difficulty" (JVal.jstr "Unknown")),
                cats, acc.total_sheets + sheets⟩
      else none
  | _ => none

def statsFold (acc : StatsAcc) : List JVal → Option StatsAcc
  | [] => some acc
  | s :: rest =>
    match statsStep acc s with
    | none => none
    | some acc2 => statsFold acc2 rest

/-- `sum(len(favs) for favs in all_favs.values())`. -/
def sumLens : List JVal → Option Nat
  | [] => some 0
  | v :: vs =>
    match pyLen v with
    | none => none
    | some n => (sumLens vs).map (fun m => n + m)

/-- `json.dumps` key coercion for the scalar keys a histogram can hold. -/
def keyStr : JVal → String
  | JVal.jstr s => s
  | JVal.jnum t => t
  | JVal.jbool true => "true"
  | JVal.jbool false => "false"
  | JVal.jnull => "null"
  | JVal.jarr _ => ""
  | JVal.jobj _ => ""

def histToJ (h : List (JVal × Nat)) : JVal :=
  JVal.jobj (h.map (fun p => (keyStr p.1, natJ p.2)))

/-- `get_stats` (src/app.py 291-330). -/
def get_stats (st : StoreSt) (favSt : StoreSt) : Resp :=
  match get_songs_data st with
  | Except.error e => ⟨500, JVal.jobj [("error", JVal.jstr e)]⟩
  | Except.ok v =>
    let allf := (get_all_favorites favSt).1
    match pyIterVals v with
    | none => resp500internal
    | some songs =>
      match statsFold ⟨[], [], [], 0⟩ songs with
      | none => resp500internal
      | some acc =>
        match sumLens (allf.map (fun p => p.2)) with
        | none => resp500internal
        | some totalFavs =>
          ⟨200, JVal.jobj [
            ("total_songs", natJ songs.length),
            ("total_artists", natJ acc.artists.length),
            ("total_categories", natJ acc.categories.length),
            ("total_sheets", natJ acc.total_sheets),
            ("total_users", natJ allf.length),
            ("total_favorites", natJ totalFavs),
            ("difficulties", histToJ acc.difficulties),
            ("database_file", JVal.jstr "sheets/piano_sheets.json"),
            ("repository", JVal.jstr "orb1ispare/piano-sheets-db")]⟩

/-- Keys of a `jsonify`d object body, in order. -/
def objKeys : JVal → List String
  | JVal.jobj kvs => kvs.map (fun p => p.1)
  | _ => []

/-- Project a decoded value to a list of strings when it is exactly a list
of strings (used to state claims at a decidable level). -/
def toStrList : JVal → Option (List String)
  | JVal.jarr xs =>
    xs.foldr (fun v acc =>
      match v, acc with
      | JVal.jstr s, some l => some (s :: l)
      | _, _ => none) (some [])
  | _ => none

/-- A favorites mapping of plain string lists, injected into `JVal`. -/
def favJ (m : List (String × List String)) : List (String × JVal) :=
  m.map (fun p => (p.1, JVal.jarr (p.2.map JVal.jstr)))

/-! ### Small facts used by several claims -/

theorem pyWs_toLower {c : Char} (h : pyWsC c = true) : Char.toLower c = c := by
  simp only [pyWsC, Bool.or_eq_true, decide_eq_true_eq] at h
  rcases h with ((((h | h) | h) | h) | h) | h <;> subst h <;> decide

theorem map_toLower_of_ws (l : List Char) (h : ∀ c ∈ l, pyWsC c) :
    l.map Char.toLower = l := by
  induction l with
  | nil => rfl
  | cons c cs ih =>
    simp only [List.map_cons, ih (fun d hd => h d (List.mem_cons_of_mem c hd)),
      pyWs_toLower (h c (List.mem_cons_self c cs))]

theorem pyStrip_all_ws {s : String} (h : ∀ c ∈ s.data, pyWsC c) :
    pyStrip (pyLower s) = "" := by
  unfold pyStrip pyLower
  simp only [map_toLower_of_ws s.data h]
  rw [List.dropWhile_eq_nil_iff.mpr h]
  rfl

/-- Claim C7: a search request whose `q` is missing, empty, or whitespace
only returns HTTP 400 with an error body, for every catalog state. -/
theorem search_blank_query_400 (st : StoreSt) (q : Option String)
    (h : q = none ∨ ∀ c ∈ (q.getD "").data, pyWsC c) :
    search_songs st q =
      ⟨400, JVal.jobj [("error", JVal.jstr "Query parameter \"q\" is required")]⟩ := by
  have hq : pyStrip (pyLower (q.getD "")) = "" := by
    rcases h with h | h
    · subst h; rfl
    · exact pyStrip_all_ws h
  simp [search_songs, hq]

theorem search_blank_query_400_witness :
    search_songs StoreSt.notConfigured (some " ") =
      ⟨400, JVal.jobj [("error", JVal.jstr "Query parameter \"q\" is required")]⟩ :=
  search_blank_query_400 StoreSt.notConfigured (some " ") (Or.inr (by decide))

/-- Claim C3, amended: every favorites read failure — the store-not-
configured error included — yields a 200 response with an empty favorites
list and count 0; no error is surfaced in the body. -/
theorem favorites_read_error_degrades_to_empty (st : StoreSt) (uid : String)
    (h : truthyE (get_user_favorites st uid).2 = true) :
    get_favorites_route st uid =
      ⟨200, JVal.jobj [("user_id", JVal.jstr uid), ("count", natJ 0),
        ("favorites", JVal.jarr [])]⟩ := by
  cases st with
  | notConfigured => rfl
  | ok content =>
    simp [get_user_favorites, get_all_favorites, truthyE] at h
  | err e =>
    by_cases he : e = ""
    · subst he
      simp [get_user_favorites, get_all_favorites, truthyE] at h
    · have ht : truthyE (some e) = true := by simp [truthyE, he]
      cases hi : isSub "not configured" e <;>
        simp [get_favorites_route, get_user_favorites, get_all_favorites,
          ht, hi, pyLen, natJ, ite_self]

theorem favorites_read_error_degrades_witness :
    get_favorites_route (StoreSt.err "boom") "u" =
      ⟨200, JVal.jobj [("user_id", JVal.jstr "u"), ("count", natJ 0),
        ("favorites", JVal.jarr [])]⟩ :=
  favorites_read_error_degrades_to_empty (StoreSt.err "boom") "u" rfl

/-- Claim C3, counterexample to the claim as stated: with the store not
configured, the response is identical to the one for any other read error —
200 with an empty list and no error field — so the "store not configured"
error is not preserved or surfaced to the caller. -/
theorem favorites_not_configured_not_surfaced :
    get_favorites_route StoreSt.notConfigured "u" =
        get_favorites_route (StoreSt.err "boom") "u" ∧
      get_favorites_route StoreSt.notConfigured "u" =
        ⟨200, JVal.jobj [("user_id", JVal.jstr "u"), ("count", natJ 0),
          ("favorites", JVal.jarr [])]⟩ :=
  ⟨rfl, rfl⟩

/-- Claim C5: adding a song-id that is already in the user's favorites
writes nothing to the store (the returned store state is the input one) and
answers 200 with the "Already in favorites" message.  A non-empty song-id
is required, since the handler turns a falsy `song_id` into a 400. -/
theorem add_duplicate_no_write (st : StoreSt) (uid sid ts : String)
    (hs : sid ≠ "")
    (h1 : (get_user_favorites st uid).2 = none)
    (h2 : pyInStr sid (get_user_favorites st uid).1 = some true) :
    add_favorite st uid (some sid) ts =
      (⟨200, JVal.jobj [("message", JVal.jstr "Already in favorites"),
        ("user_id", JVal.jstr uid),
        ("favorites", (get_user_favorites st uid).1)]⟩, st) := by
  have ht : truthyE (some sid) = true := by simp [truthyE, hs]
  simp [add_favorite, ht, h1, h2, truthyE, hs]

theorem add_duplicate_no_write_witness :
    add_favorite (StoreSt.ok "favorites = \x7b\"u\": [\"s\"]\x7d;") "u"
        (some "s") "2024-01-01 00:00:00" =
      (⟨200, JVal.jobj [("message", JVal.jstr "Already in favorites"),
        ("user_id", JVal.jstr "u"),
        ("favorites",
          (get_user_favorites
            (StoreSt.ok "favorites = \x7b\"u\": [\"s\"]\x7d;") "u").1)]⟩,
        StoreSt.ok "favorites = \x7b\"u\": [\"s\"]\x7d;") :=
  add_duplicate_no_write _ "u" "s" "2024-01-01 00:00:00"
    (by decide) rfl (by rfl)

/-- Claim C6: removing a song-id that is not in the user's favorites writes
nothing to the store and answers 200 with the "Not in favorites" message.
A non-empty song-id is required, as for the add endpoint. -/
theorem remove_absent_no_write (st : StoreSt) (uid sid ts : String)
    (hs : sid ≠ "")
    (h1 : (get_user_favorites st uid).2 = none)
    (h2 : pyInStr sid (get_user_favorites st uid).1 = some false) :
    remove_favorite st uid (some sid) ts =
      (⟨200, JVal.jobj [("message", JVal.jstr "Not in favorites"),
        ("user_id", JVal.jstr uid),
        ("favorites", (get_user_favorites st uid).1)]⟩, st) := by
  have ht : truthyE (some sid) = true := by simp [truthyE, hs]
  simp [remove_favorite, ht, h1, h2, truthyE, hs]

theorem remove_absent_no_write_witness :
    remove_favorite (StoreSt.ok "favorites = \x7b\"u\": [\"s\"]\x7d;") "u"
        (some "z") "2024-01-01 00:00:00" =
      (⟨200, JVal.jobj [("message", JVal.jstr "Not in favorites"),
        ("user_id", JVal.jstr "u"),
        ("favorites",
          (get_user_favorites
            (StoreSt.ok "favorites = \x7b\"u\": [\"s\"]\x7d;") "u").1)]⟩,
        StoreSt.ok "favorites = \x7b\"u\": [\"s\"]\x7d;") :=
  remove_absent_no_write _ "u" "z" "2024-01-01 00:00:00"
    (by decide) rfl (by rfl)

/-- The exact store text of claim C1. -/
def c1content : String :=
  "favorites = \x7b'u1': ['a','b'], /* c */ 'u2': ['c'],\x7d;"

/-- Claim C1, counterexample: on the claimed input the parser does not
return the two-user mapping — the block comment is not stripped (only
`//`-to-newline comments are), the strict JSON decode fails, and the
failure is swallowed into an empty mapping. -/
theorem tolerant_parser_block_comment_cx :
    get_all_favorites (StoreSt.ok c1content) = ([], none) ∧
      ([] : List (String × JVal)) ≠ favJ [("u1", ["a", "b"]), ("u2", ["c"])] :=
  ⟨rfl, fun h => List.noConfusion h⟩

/-- Claim C1, amended: on that store text `get_all_favorites` returns the
empty mapping with no error. -/
theorem tolerant_parser_block_comment_empty :
    get_all_favorites (StoreSt.ok c1content) = ([], none) := rfl

/-- A well-formed single-user favorites store text, used as a concrete
starting state. -/
def c2content : String := "favorites = \x7b\"u\": [\"s\"]\x7d;"

/-- Claim C2, counterexample: with `"s"` already stored for user `"u"`, a
successful add of `"s"` (200, the idempotent branch, no write) followed by
a successful remove of `"s"` (200) leaves the stored list empty — not equal
to its pre-add state `["s"]`. -/
theorem add_remove_not_roundtrip_cx :
    (add_favorite (StoreSt.ok c2content) "u" (some "s") "2024-01-01 00:00:00").1.status = 200 ∧
    (remove_favorite
      (add_favorite (StoreSt.ok c2content) "u" (some "s") "2024-01-01 00:00:00").2
      "u" (some "s") "2024-01-01 00:00:01").1.status = 200 ∧
    toStrList (get_user_favorites (StoreSt.ok c2content) "u").1 = some ["s"] ∧
    toStrList (get_user_favorites
      (remove_favorite
        (add_favorite (StoreSt.ok c2content) "u" (some "s") "2024-01-01 00:00:00").2
        "u" (some "s") "2024-01-01 00:00:01").2 "u").1 = some [] :=
  ⟨rfl, rfl, rfl, rfl⟩

def respMsg (r : Resp) : Option JVal :=
  match r.body with
  | JVal.jobj kvs => kvs.lookup "message"
  | _ => none

/-- Claim C4, counterexample: the 200 response of the add endpoint for a
song-id that is already present has keys `message`, `user_id`, `favorites`
only — no `count` field. -/
theorem add_response_missing_count_cx :
    (add_favorite (StoreSt.ok c2content) "u" (some "s") "ts").1.status = 200 ∧
    objKeys (add_favorite (StoreSt.ok c2content) "u" (some "s") "ts").1.body =
      ["message", "user_id", "favorites"] ∧
    ¬ "count" ∈ objKeys
      (add_favorite (StoreSt.ok c2content) "u" (some "s") "ts").1.body :=
  ⟨rfl, rfl, by decide⟩

/-- Claim C4, amended: every 200 response of the add and remove endpoints
carries either all four fields `message`, `user_id`, `count`, `favorites`,
or — exactly for the "Already in favorites" and "Not in favorites"
responses — the three fields `message`, `user_id`, `favorites` with no
`count`. -/
theorem add_remove_200_fields (st : StoreSt) (uid : String)
    (sid : Option String) (ts : String) (r : Resp) (st2 : StoreSt)
    (h : add_favorite st uid sid ts = (r, st2) ∨
      remove_favorite st uid sid ts = (r, st2))
    (h200 : r.status = 200) :
    objKeys r.body = ["message", "user_id", "count", "favorites"] ∨
      (objKeys r.body = ["message", "user_id", "favorites"] ∧
        (respMsg r = some (JVal.jstr "Already in favorites") ∨
          respMsg r = some (JVal.jstr "Not in favorites"))) := by
  rcases h with h | h
  · unfold add_favorite at h
    repeat' split at h
    all_goals injection h with h1 h2
    all_goals subst h1
    all_goals first
      | exact Or.inl rfl
      | exact Or.inr ⟨rfl, Or.inl rfl⟩
      | exact Or.inr ⟨rfl, Or.inr rfl⟩
      | simp [resp500internal] at h200
  · unfold remove_favorite at h
    repeat' split at h
    all_goals injection h with h1 h2
    all_goals subst h1
    all_goals first
      | exact Or.inl rfl
      | exact Or.inr ⟨rfl, Or.inl rfl⟩
      | exact Or.inr ⟨rfl, Or.inr rfl⟩
      | simp [resp500internal] at h200

theorem add_remove_200_fields_witness :
    objKeys (add_favorite (StoreSt.ok c2content) "u" (some "z") "ts").1.body =
        ["message", "user_id", "count", "favorites"] ∨
      (objKeys (add_favorite (StoreSt.ok c2content) "u" (some "z") "ts").1.body =
          ["message", "user_id", "favorites"] ∧
        (respMsg (add_favorite (StoreSt.ok c2content) "u" (some "z") "ts").1 =
            some (JVal.jstr "Already in favorites") ∨
          respMsg (add_favorite (StoreSt.ok c2content) "u" (some "z") "ts").1 =
            some (JVal.jstr "Not in favorites"))) :=
  add_remove_200_fields (StoreSt.ok c2content) "u" (some "z") "ts"
    (add_favorite (StoreSt.ok c2content) "u" (some "z") "ts").1
    (add_favorite (StoreSt.ok c2content) "u" (some "z") "ts").2
    (Or.inl rfl) rfl

/-- The `url` a song record contributes to the scan (`song.get('url','')`
for dict songs). -/
def urlOfSong : JVal → JVal
  | JVal.jobj kvs => dictGetD kvs "url" (JVal.jstr "")
  | _ => JVal.jstr ""

/-- The matching predicate claim C9 describes: the requested id is a
substring of the url, or the url ends with a slash followed by the id. -/
def specMatch (sid : String) (s : JVal) : Bool :=
  match urlOfSong s with
  | JVal.jstr u => isSub sid u || List.isSuffixOf ('/' :: sid.data) u.data
  | _ => false

theorem scanSongs_eq_find (sid : String) (songs : List JVal)
    (hurl : ∀ s ∈ songs,
      (∃ kvs, s = JVal.jobj kvs) ∧ ∃ u, urlOfSong s = JVal.jstr u) :
    scanSongs sid songs = some (songs.find? (specMatch sid)) := by
  induction songs with
  | nil => rfl
  | cons s rest ih =>
    obtain ⟨⟨kvs, rfl⟩, ⟨u, hu⟩⟩ := hurl s (List.mem_cons_self s rest)
    have hu' : dictGetD kvs "url" (JVal.jstr "") = JVal.jstr u := hu
    have hrest : scanSongs sid rest = some (rest.find? (specMatch sid)) :=
      ih (fun t ht => hurl t (List.mem_cons_of_mem _ ht))
    have hm : specMatch sid (JVal.jobj kvs) =
        (isSub sid u || List.isSuffixOf ('/' :: sid.data) u.data) := by
      simp [specMatch, urlOfSong, hu']
    cases hin : isSub sid u with
    | true =>
      have : specMatch sid (JVal.jobj kvs) = true := by simp [hm, hin]
      simp [scanSongs, hu', pyInStr, hin, List.find?_cons_of_pos _ this]
    | false =>
      cases hsuf : List.isSuffixOf ('/' :: sid.data) u.data with
      | true =>
        have : specMatch sid (JVal.jobj kvs) = true := by simp [hm, hin, hsuf]
        simp [scanSongs, hu', pyInStr, hin, hsuf, List.find?_cons_of_pos _ this]
      | false =>
        have : ¬ specMatch sid (JVal.jobj kvs) = true := by simp [hm, hin, hsuf]
        simp [scanSongs, hu', pyInStr, hin, hsuf,
          List.find?_cons_of_neg _ this, hrest]

/-- Claim C9: get-by-id scans the catalog in order, returns (200) the first
song whose url contains the id as a substring or ends with slash-plus-id,
and 404 with `Song not found` when no song matches.  The catalog is assumed
decoded as a list of records each carrying a string url (else the handler
would 500 on the raised exception). -/
theorem get_song_first_url_match (st : StoreSt) (sid : String)
    (songs : List JVal)
    (hcat : get_songs_data st = Except.ok (JVal.jarr songs))
    (hurl : ∀ s ∈ songs,
      (∃ kvs, s = JVal.jobj kvs) ∧ ∃ u, urlOfSong s = JVal.jstr u) :
    get_song st sid =
      match songs.find? (specMatch sid) with
      | some s => ⟨200, s⟩
      | none => ⟨404, JVal.jobj [("error", JVal.jstr "Song not found")]⟩ := by
  unfold get_song
  rw [hcat]
  simp only [pyIterVals]
  rw [scanSongs_eq_find sid songs hurl]
  cases songs.find? (specMatch sid) <;> rfl

/-- A two-song catalog for instantiating the get-by-id theorem. -/
def c9catalog : StoreSt :=
  StoreSt.ok "[\x7b\"url\": \"x/y/abc\"\x7d, \x7b\"url\": \"x/y/defg\"\x7d]"

theorem get_song_first_url_match_witness :
    get_song c9catalog "defg" = ⟨200, JVal.jobj [("url", JVal.jstr "x/y/defg")]⟩ := by
  refine (get_song_first_url_match c9catalog "defg"
    [JVal.jobj [("url", JVal.jstr "x/y/abc")],
     JVal.jobj [("url", JVal.jstr "x/y/defg")]] rfl ?_).trans ?_
  · intro s hs
    simp only [List.mem_cons, List.mem_singleton, List.not_mem_nil] at hs
    rcases hs with rfl | rfl | h
    · exact ⟨⟨_, rfl⟩, ⟨"x/y/abc", rfl⟩⟩
    · exact ⟨⟨_, rfl⟩, ⟨"x/y/defg", rfl⟩⟩
    · cases h
  · rfl

/-- Scalar equality is propositional equality on the values it accepts. -/
theorem scalarEq_true_eq {a b : JVal} (h : scalarEq a b = true) : a = b := by
  cases a <;> cases b <;> simp_all [scalarEq]

theorem hashable_scalarEq_self {k : JVal} (h : hashable k = true) :
    scalarEq k k = true := by
  cases k <;> simp_all [scalarEq, hashable]

/-- The histogram keeps pairwise-distinct keys (as every dict does). -/
def HOK (h : List (JVal × Nat)) : Prop :=
  h.Pairwise (fun p q => scalarEq p.1 q.1 = false)

theorem histInsert_HOK {h : List (JVal × Nat)} {k : JVal} (hOK : HOK h) :
    HOK (histInsert h k) := by
  unfold HOK at hOK ⊢
  unfold histInsert
  split
  · have hfst : ∀ p : JVal × Nat,
        ((if scalarEq p.1 k then (p.1, p.2 + 1) else p) : JVal × Nat).1 = p.1 :=
      fun p => by split <;> rfl
    exact List.pairwise_map.mpr
      (hOK.imp (fun {a b} hab => by rw [hfst, hfst]; exact hab))
  · next hany =>
    rw [List.pairwise_append]
    refine ⟨hOK, List.pairwise_singleton _ _, ?_⟩
    intro p hp q hq
    simp only [List.mem_singleton] at hq
    subst hq
    have hany2 : ∀ a ∈ h, ¬ scalarEq a.1 k = true := by
      simpa [List.any_eq_true] using hany
    exact Bool.eq_false_iff.mpr (hany2 p hp)

/-- Sum of the histogram's counts. -/
def histCount (h : List (JVal × Nat)) : Nat := (h.map Prod.snd).sum

theorem histCount_map_incr {h : List (JVal × Nat)} {k : JVal} (hOK : HOK h)
    (hany : h.any (fun p => scalarEq p.1 k) = true) :
    histCount (h.map (fun p => if scalarEq p.1 k then (p.1, p.2 + 1) else p)) =
      histCount h + 1 := by
  induction h with
  | nil => cases hany
  | cons p t ih =>
    rcases List.pairwise_cons.mp hOK with ⟨hp, htOK⟩
    cases hpk : scalarEq p.1 k with
    | true =>
      have hkey : p.1 = k := scalarEq_true_eq hpk
      have hself : scalarEq p.1 p.1 = true := by rw [hkey] at hpk ⊢; exact hpk
      have hid : ∀ q ∈ t,
          (if scalarEq q.1 k then (q.1, q.2 + 1) else q) = q := by
        intro q hq
        have hqk : scalarEq q.1 k = false := by
          by_contra hc
          have hqk' : scalarEq q.1 k = true := by
            cases hx : scalarEq q.1 k
            · exact absurd hx hc
            · rfl
          have : q.1 = k := scalarEq_true_eq hqk'
          have : scalarEq p.1 q.1 = false := hp q hq
          rw [‹q.1 = k›, ← hkey] at this
          rw [hself] at this
          cases this
        simp [hqk]
      have hmap : t.map (fun q => if scalarEq q.1 k then (q.1, q.2 + 1) else q) = t := by
        rw [List.map_congr_left hid]
        exact List.map_id t
      simp only [List.map_cons, hpk, if_true, hmap, histCount, List.sum_cons]
      omega
    | false =>
      have hany' : t.any (fun q => scalarEq q.1 k) = true := by
        simpa [List.any_cons, hpk] using hany
      have hfp : (if scalarEq p.1 k then (p.1, p.2 + 1) else p) = p := by
        simp [hpk]
      simp only [List.map_cons, hfp, histCount, List.sum_cons]
      have := ih htOK hany'
      unfold histCount at this
      omega

theorem histCount_histInsert {h : List (JVal × Nat)} {k : JVal} (hOK : HOK h) :
    histCount (histInsert h k) = histCount h + 1 := by
  unfold histInsert
  split
  · next hany => exact histCount_map_incr hOK hany
  · simp [histCount, List.map_append, List.sum_append]

/-- The count the histogram reports for a key (0 when absent). -/
def countFor (h : List (JVal × Nat)) (k : JVal) : Nat :=
  match h.find? (fun p => scalarEq p.1 k) with
  | some p => p.2
  | none => 0

theorem countFor_histInsert_same {h : List (JVal × Nat)} {k : JVal}
    (hk : scalarEq k k = true) :
    countFor (histInsert h k) k = countFor h k + 1 := by
  unfold histInsert
  split
  · next hany =>
    induction h with
    | nil => cases hany
    | cons p t ih =>
      cases hpk : scalarEq p.1 k with
      | true =>
        have h1 : ((if scalarEq p.1 k then (p.1, p.2 + 1) else p) : JVal × Nat) =
            (p.1, p.2 + 1) := by simp [hpk]
        have e1 : List.find? (fun w => scalarEq w.1 k)
            ((p.1, p.2 + 1) ::
              t.map (fun w => if scalarEq w.1 k then (w.1, w.2 + 1) else w)) =
            some (p.1, p.2 + 1) :=
          List.find?_cons_of_pos _ (by simpa using hpk)
        have e2 : List.find? (fun w => scalarEq w.1 k) (p :: t) = some p :=
          List.find?_cons_of_pos _ hpk
        simp only [List.map_cons, h1, countFor, e1, e2]
      | false =>
        have h1 : ((if scalarEq p.1 k then (p.1, p.2 + 1) else p) : JVal × Nat) = p := by
          simp [hpk]
        have hany2 : t.any (fun q => scalarEq q.1 k) = true := by
          simpa [List.any_cons, hpk] using hany
        have e1 : List.find? (fun w => scalarEq w.1 k)
            (p :: t.map (fun w => if scalarEq w.1 k then (w.1, w.2 + 1) else w)) =
            List.find? (fun w => scalarEq w.1 k)
              (t.map (fun w => if scalarEq w.1 k then (w.1, w.2 + 1) else w)) :=
          List.find?_cons_of_neg _ (by simp [hpk])
        have e2 : List.find? (fun w => scalarEq w.1 k) (p :: t) =
            List.find? (fun w => scalarEq w.1 k) t :=
          List.find?_cons_of_neg _ (by simp [hpk])
        have ih2 := ih hany2
        simp only [countFor, List.map_cons, h1, e1, e2] at ih2 ⊢
        exact ih2
  · next hany =>
    have hnone : h.find? (fun w => scalarEq w.1 k) = none := by
      rw [List.find?_eq_none]
      intro x hx
      have hany2 : ∀ a ∈ h, ¬ scalarEq a.1 k = true := by
        simpa [List.any_eq_true] using hany
      exact hany2 x hx
    have e1 : List.find? (fun w => scalarEq w.1 k) [(k, 1)] = some (k, 1) :=
      List.find?_cons_of_pos _ (by simpa using hk)
    simp only [countFor, List.find?_append, hnone, Option.none_or, e1]

theorem countFor_histInsert_mono {h : List (JVal × Nat)} {k q : JVal} :
    countFor h q ≤ countFor (histInsert h k) q := by
  unfold histInsert
  split
  · next hany =>
    clear hany
    induction h with
    | nil => simp [countFor]
    | cons p t ih =>
      have hfst : ((if scalarEq p.1 k then (p.1, p.2 + 1) else p) : JVal × Nat).1 = p.1 := by
        split <;> rfl
      cases hpq : scalarEq p.1 q with
      | true =>
        have hsnd : p.2 ≤ ((if scalarEq p.1 k then (p.1, p.2 + 1) else p) : JVal × Nat).2 := by
          split <;> simp
        have e1 : List.find? (fun w => scalarEq w.1 q)
            ((if scalarEq p.1 k then (p.1, p.2 + 1) else p) ::
              t.map (fun w => if scalarEq w.1 k then (w.1, w.2 + 1) else w)) =
            some (if scalarEq p.1 k then (p.1, p.2 + 1) else p) :=
          List.find?_cons_of_pos _ (by simpa [hfst] using hpq)
        have e2 : List.find? (fun w => scalarEq w.1 q) (p :: t) = some p :=
          List.find?_cons_of_pos _ hpq
        simp only [countFor, List.map_cons, e1, e2]
        exact hsnd
      | false =>
        have e1 : List.find? (fun w => scalarEq w.1 q)
            ((if scalarEq p.1 k then (p.1, p.2 + 1) else p) ::
              t.map (fun w => if scalarEq w.1 k then (w.1, w.2 + 1) else w)) =
            List.find? (fun w => scalarEq w.1 q)
              (t.map (fun w => if scalarEq w.1 k then (w.1, w.2 + 1) else w)) :=
          List.find?_cons_of_neg _ (by simp [hfst, hpq])
        have e2 : List.find? (fun w => scalarEq w.1 q) (p :: t) =
            List.find? (fun w => scalarEq w.1 q) t :=
          List.find?_cons_of_neg _ (by simp [hpq])
        have ih2 := ih
        simp only [countFor, List.map_cons, e1, e2] at ih2 ⊢
        exact ih2
  · cases hf : h.find? (fun w => scalarEq w.1 q) with
    | some p => simp [countFor, List.find?_append, hf]
    | none => simp [countFor, List.find?_append, hf]

/-- A song record with no `difficulty` field. -/
def noDiff : JVal → Bool
  | JVal.jobj kvs => (kvs.lookup "difficulty").isNone
  | _ => false

theorem statsStep_some {acc acc2 : StatsAcc} {song : JVal}
    (h : statsStep acc song = some acc2) :
    ∃ k, hashable k = true ∧
      acc2.difficulties = histInsert acc.difficulties k ∧
      (noDiff song = true → k = JVal.jstr "Unknown") := by
  cases song with
  | jobj kvs =>
    simp only [statsStep] at h
    repeat' split at h
    all_goals try exact Option.noConfusion h
    injection h with h2
    subst h2
    refine ⟨dictGetD kvs "difficulty" (JVal.jstr "Unknown"), by assumption, rfl, ?_⟩
    intro hnd
    have hlk : kvs.lookup "difficulty" = none :=
      Option.isNone_iff_eq_none.mp (by simpa [noDiff] using hnd)
    simp [dictGetD, hlk]
  | jnull => exact Option.noConfusion h
  | jbool b => exact Option.noConfusion h
  | jnum t => exact Option.noConfusion h
  | jstr s => exact Option.noConfusion h
  | jarr xs => exact Option.noConfusion h

theorem statsFold_props : ∀ (songs : List JVal) (acc acc2 : StatsAcc),
    statsFold acc songs = some acc2 → HOK acc.difficulties →
    HOK acc2.difficulties ∧
    histCount acc2.difficulties = histCount acc.difficulties + songs.length ∧
    countFor acc.difficulties (JVal.jstr "Unknown") + (songs.filter noDiff).length ≤
      countFor acc2.difficulties (JVal.jstr "Unknown")
  | [], acc, acc2, h, hOK => by
    injection h with h2
    subst h2
    exact ⟨hOK, by simp, by simp⟩
  | s :: rest, acc, acc2, h, hOK => by
    unfold statsFold at h
    cases hstep : statsStep acc s with
    | none => rw [hstep] at h; exact Option.noConfusion h
    | some acc1 =>
      rw [hstep] at h
      obtain ⟨k, hk, hdiff, hnd⟩ := statsStep_some hstep
      have hOK1 : HOK acc1.difficulties := by
        rw [hdiff]; exact histInsert_HOK hOK
      obtain ⟨hOK2, hcnt, hunk⟩ := statsFold_props rest acc1 acc2 h hOK1
      refine ⟨hOK2, ?_, ?_⟩
      · rw [hcnt, hdiff, histCount_histInsert hOK, List.length_cons]
        omega
      · cases hnds : noDiff s with
        | true =>
          have hkU : k = JVal.jstr "Unknown" := hnd hnds
          subst hkU
          have hsame : countFor acc1.difficulties (JVal.jstr "Unknown") =
              countFor acc.difficulties (JVal.jstr "Unknown") + 1 := by
            rw [hdiff]; exact countFor_histInsert_same (by decide)
          rw [List.filter_cons_of_pos hnds, List.length_cons]
          omega
        | false =>
          have hmono : countFor acc.difficulties (JVal.jstr "Unknown") ≤
              countFor acc1.difficulties (JVal.jstr "Unknown") := by
            rw [hdiff]; exact countFor_histInsert_mono
          rw [List.filter_cons_of_neg (by simp [hnds])]
          omega

/-- Claim C8: whenever the stats endpoint answers 200, its difficulty
histogram assigns each song to exactly one bucket — the counts sum to the
reported `total_songs` — and every song without a `difficulty` field is
counted in the `Unknown` bucket. -/
theorem stats_histogram_sum (st favSt : StoreSt) (songs : List JVal)
    (hcat : get_songs_data st = Except.ok (JVal.jarr songs))
    (h200 : (get_stats st favSt).status = 200) :
    ∃ acc tf,
      statsFold ⟨[], [], [], 0⟩ songs = some acc ∧
      sumLens ((get_all_favorites favSt).1.map (fun p => p.2)) = some tf ∧
      get_stats st favSt = ⟨200, JVal.jobj [
        ("total_songs", natJ songs.length),
        ("total_artists", natJ acc.artists.length),
        ("total_categories", natJ acc.categories.length),
        ("total_sheets", natJ acc.total_sheets),
        ("total_users", natJ (get_all_favorites favSt).1.length),
        ("total_favorites", natJ tf),
        ("difficulties", histToJ acc.difficulties),
        ("database_file", JVal.jstr "sheets/piano_sheets.json"),
        ("repository", JVal.jstr "orb1ispare/piano-sheets-db")]⟩ ∧
      histCount acc.difficulties = songs.length ∧
      (songs.filter noDiff).length ≤ countFor acc.difficulties (JVal.jstr "Unknown") := by
  unfold get_stats at h200 ⊢
  rw [hcat] at h200 ⊢
  simp only [pyIterVals] at h200 ⊢
  cases hfold : statsFold ⟨[], [], [], 0⟩ songs with
  | none => rw [hfold] at h200; simp [resp500internal] at h200
  | some acc =>
    rw [hfold] at h200
    cases hsum : sumLens ((get_all_favorites favSt).1.map (fun p => p.2)) with
    | none => rw [hsum] at h200; simp [resp500internal] at h200
    | some tf =>
      obtain ⟨_, hcnt, hunk⟩ :=
        statsFold_props songs ⟨[], [], [], 0⟩ acc hfold List.Pairwise.nil
      refine ⟨acc, tf, rfl, rfl, rfl, ?_, ?_⟩
      · simpa [histCount] using hcnt
      · simpa [countFor] using hunk

/-- A two-song catalog (one song with a difficulty, one bare record) for
instantiating the stats theorem. -/
def c8catalog : StoreSt :=
  StoreSt.ok "[\x7b\"difficulty\": \"Easy\"\x7d, \x7b\x7d]"

theorem stats_histogram_sum_witness :
    ∃ acc tf,
      statsFold ⟨[], [], [], 0⟩
          [JVal.jobj [("difficulty", JVal.jstr "Easy")], JVal.jobj []] = some acc ∧
      sumLens ((get_all_favorites StoreSt.notConfigured).1.map (fun p => p.2)) =
        some tf ∧
      get_stats c8catalog StoreSt.notConfigured = ⟨200, JVal.jobj [
        ("total_songs", natJ
          ([JVal.jobj [("difficulty", JVal.jstr "Easy")], JVal.jobj []] :
            List JVal).length),
        ("total_artists", natJ acc.artists.length),
        ("total_categories", natJ acc.categories.length),
        ("total_sheets", natJ acc.total_sheets),
        ("total_users", natJ (get_all_favorites StoreSt.notConfigured).1.length),
        ("total_favorites", natJ tf),
        ("difficulties", histToJ acc.difficulties),
        ("database_file", JVal.jstr "sheets/piano_sheets.json"),
        ("repository", JVal.jstr "orb1ispare/piano-sheets-db")]⟩ ∧
      histCount acc.difficulties =
        ([JVal.jobj [("difficulty", JVal.jstr "Easy")], JVal.jobj []] :
          List JVal).length ∧
      (([JVal.jobj [("difficulty", JVal.jstr "Easy")], JVal.jobj []] :
          List JVal).filter noDiff).length ≤
        countFor acc.difficulties (JVal.jstr "Unknown") :=
  stats_histogram_sum c8catalog StoreSt.notConfigured
    [JVal.jobj [("difficulty", JVal.jstr "Easy")], JVal.jobj []] rfl rfl

/-! ### Round-trip machinery: the serializer output and its reparse -/

/-- Safe characters for ids inside the persisted favorites text: printable,
no quote, apostrophe or backslash. -/
def okChar (c : Char) : Prop :=
  32 ≤ c.toNat ∧ c ≠ qC ∧ c ≠ apC ∧ c ≠ bsC

instance (c : Char) : Decidable (okChar c) := by unfold okChar; infer_instance

/-- Scan for a comma followed by whitespace and a closing brace/bracket
(the trailing-comma regex's match condition). -/
def hasCB : List Char → Bool
  | [] => false
  | c :: cs =>
    if c = ',' then
      (match cs.dropWhile pyWsC with
       | d :: _ => if d = rbC || d = ']' then true else hasCB cs
       | [] => hasCB cs)
    else hasCB cs

/-- A user-id or song-id that survives the serialize/parse round trip:
safe characters only, and none of the substrings the normalization regexes
or the body-extraction regex can tear apart. -/
def SafeStr (s : String) : Prop :=
  (∀ c ∈ s.data, okChar c) ∧
  isSubC ['/', '/'] s.data = false ∧
  isSubC [rbC, ';'] s.data = false ∧
  hasCB s.data = false

/-- The conditions claim C10 itself states (no quotes, backslashes, `//`
or a brace-semicolon pair), used to exhibit its counterexample. -/
def ClaimSafeStr (s : String) : Prop :=
  (∀ c ∈ s.data, c ≠ apC ∧ c ≠ qC ∧ c ≠ bsC) ∧
  isSubC ['/', '/'] s.data = false ∧
  isSubC [rbC, ';'] s.data = false

def ClaimSafeMap (m : List (String × List String)) : Prop :=
  (m.map Prod.fst).Nodup ∧
  ∀ p ∈ m, ClaimSafeStr p.1 ∧ ∀ id ∈ p.2, ClaimSafeStr id

def SafeMap (m : List (String × List String)) : Prop :=
  (m.map Prod.fst).Nodup ∧
  ∀ p ∈ m, SafeStr p.1 ∧ ∀ id ∈ p.2, SafeStr id

/-- Timestamps as `strftime` formats them: digits, dashes, colons, spaces. -/
def SafeTs (ts : String) : Prop :=
  ∀ c ∈ ts.data, c.isDigit ∨ c = '-' ∨ c = ':' ∨ c = ' '

instance (s : String) : Decidable (SafeStr s) := by unfold SafeStr; infer_instance

instance (s : String) : Decidable (ClaimSafeStr s) := by
  unfold ClaimSafeStr; infer_instance

instance (m : List (String × List String)) : Decidable (SafeMap m) := by
  unfold SafeMap; infer_instance

instance (m : List (String × List String)) : Decidable (ClaimSafeMap m) := by
  unfold ClaimSafeMap; infer_instance

instance (ts : String) : Decidable (SafeTs ts) := by unfold SafeTs; infer_instance

/-- The quoted comma-joined ids inside one serialized line. -/
def idsChars (ids : List String) : List Char :=
  List.intercalate [',', ' '] (ids.map (fun s => qC :: s.data ++ [qC]))

/-- A serialized line without its trailing comma/newline. -/
def lineChars (u : String) (ids : List String) : List Char :=
  ' ' :: ' ' :: qC :: u.data ++ [qC, ':', ' ', '['] ++ idsChars ids ++ [']']

/-- The serialized lines joined by comma-newline (no trailing separator). -/
def linesSep : List (String × List String) → List Char
  | [] => []
  | [p] => lineChars p.1 p.2
  | p :: q :: rest => lineChars p.1 p.2 ++ ',' :: '\n' :: linesSep (q :: rest)

/-- The regex-extracted body (group 1 with its braces) the serializer's
output carries. -/
def bodyCore (m : List (String × List String)) : List Char :=
  match m with
  | [] => [lbC, '\n', rbC]
  | _ :: _ => lbC :: '\n' :: (linesSep m ++ ['\n', rbC])

theorem pyStr_jstr (s : String) : pyStr (JVal.jstr s) = s := rfl

theorem pyElemStrs_favList (l : List String) :
    pyElemStrs (JVal.jarr (l.map JVal.jstr)) = some l := by
  simp [pyElemStrs, List.map_map]
  exact List.map_congr_left (fun s _ => rfl) |>.trans (List.map_id l)

/-- Concatenation of serialized entries (each with trailing comma/newline). -/
def entriesChars : List (String × List String) → List Char
  | [] => []
  | p :: rest => entryChars p.1 p.2 ++ entriesChars rest

theorem serializeEntries_favJ (m : List (String × List String)) :
    serializeEntries (favJ m) = some (entriesChars m) := by
  induction m with
  | nil => rfl
  | cons p rest ih =>
    simp only [favJ, List.map_cons] at ih ⊢
    rw [serializeEntries, pyElemStrs_favList, ih]
    rfl

theorem entryChars_eq_line (u : String) (ids : List String) :
    entryChars u ids = lineChars u ids ++ [',', '\n'] := by
  simp [entryChars, lineChars, idsChars]

theorem entriesChars_eq (m : List (String × List String)) (hm : m ≠ []) :
    entriesChars m = linesSep m ++ [',', '\n'] := by
  induction m with
  | nil => exact absurd rfl hm
  | cons p rest ih =>
    cases rest with
    | nil => simp [entriesChars, linesSep, entryChars_eq_line]
    | cons q rest2 =>
      rw [entriesChars, ih (by simp), entryChars_eq_line, linesSep]
      simp

theorem rstripCN_append_cn (xs : List Char) (c : Char)
    (hc : c = ',' ∨ c = '\n') :
    rstripCN (xs ++ [c]) = rstripCN xs := by
  unfold rstripCN
  rw [List.reverse_append]
  rcases hc with rfl | rfl <;> simp

theorem rstripCN_ends_other (xs : List Char) (c : Char)
    (hc : ¬(c = ',' ∨ c = '\n')) :
    rstripCN (xs ++ [c]) = xs ++ [c] := by
  unfold rstripCN
  rw [List.reverse_append]
  have : ¬(c = ',' || c = '\n') = true := by
    simp only [Bool.or_eq_true, decide_eq_true_eq]
    exact hc
  simp [List.dropWhile_cons, this]

theorem linesSep_ends_bracket (m : List (String × List String)) (hm : m ≠ []) :
    ∃ ys, linesSep m = ys ++ [']'] := by
  induction m with
  | nil => exact absurd rfl hm
  | cons p rest ih =>
    cases rest with
    | nil =>
      refine ⟨' ' :: ' ' :: qC :: p.1.data ++ [qC, ':', ' ', '['] ++ idsChars p.2, ?_⟩
      simp [linesSep, lineChars]
    | cons q rest2 =>
      obtain ⟨ys, hys⟩ := ih (by simp)
      exact ⟨lineChars p.1 p.2 ++ ',' :: '\n' :: ys, by simp [linesSep, hys]⟩

/-- The serializer's `js_content` is the fixed prefix followed by the body
and the closing semicolon/newline. -/
theorem jsContentOf_entries (m : List (String × List String)) :
    jsContentOf (entriesChars m) =
      ("export const favorites = ").data ++ bodyCore m ++ [';', '\n'] := by
  unfold jsContentOf
  cases m with
  | nil =>
    have h1 : rstripCN (("export const favorites = ").data ++ [lbC, '\n'] ++ []) =
        ("export const favorites = ").data ++ [lbC] := by
      have := rstripCN_append_cn (("export const favorites = ").data ++ [lbC]) '\n'
        (Or.inr rfl)
      rw [List.append_nil]
      have h2 : ("export const favorites = ").data ++ [lbC, '\n'] =
          (("export const favorites = ").data ++ [lbC]) ++ ['\n'] := by simp
      rw [h2, this]
      exact rstripCN_ends_other _ _ (by decide)
    rw [entriesChars, h1]
    simp [bodyCore]
  | cons p rest =>
    rw [entriesChars_eq _ (by simp)]
    have h2 : ("export const favorites = ").data ++ [lbC, '\n'] ++
        (linesSep (p :: rest) ++ [',', '\n']) =
        ((("export const favorites = ").data ++ [lbC, '\n'] ++
          linesSep (p :: rest)) ++ [',']) ++ ['\n'] := by simp
    rw [h2, rstripCN_append_cn _ _ (Or.inr rfl), rstripCN_append_cn _ _ (Or.inl rfl)]
    obtain ⟨ys, hys⟩ := linesSep_ends_bracket (p :: rest) (by simp)
    rw [hys]
    have h3 : ("export const favorites = ").data ++ [lbC, '\n'] ++ (ys ++ [']']) =
        (("export const favorites = ").data ++ [lbC, '\n'] ++ ys) ++ [']'] := by simp
    rw [h3, rstripCN_ends_other _ _ (by decide)]
    simp [bodyCore, hys]

theorem isSubC_cons_false {pat : List Char} {c : Char} {cs : List Char}
    (h : isSubC pat (c :: cs) = false) : isSubC pat cs = false := by
  unfold isSubC at h
  rcases Bool.or_eq_false_iff.mp h with ⟨_, h2⟩
  exact h2

theorem pLit_false_head {c : Char} (hc : c ≠ 'f') (cs : List Char) :
    pLit "favorites" (c :: cs) = false := by
  unfold pLit
  cases h2 : "favorites".data.isPrefixOf (c :: cs)
  · rfl
  · exfalso
    have h3 := List.isPrefixOf_iff_prefix.mp h2
    rw [show "favorites".data = 'f' :: "avorites".data from rfl] at h3
    exact hc (List.cons_prefix_cons.mp h3).1.symm

theorem findFavAux_skip (l : List Char) (hl : ∀ c ∈ l, c ≠ 'f') :
    ∀ (f : Nat) (s : List Char),
      findFavAux (l.length + f) (l ++ s) = findFavAux f s := by
  induction l with
  | nil => intro f s; simp
  | cons c t ih =>
    intro f s
    have he : (c :: t).length + f = (t.length + f) + 1 := by
      simp [List.length_cons]; omega
    rw [he]
    show findFavAux (Nat.succ (t.length + f)) (c :: (t ++ s)) = findFavAux f s
    rw [findFavAux]
    rw [pLit_false_head (hl c (List.mem_cons_self c t)) _]
    simp only [Bool.false_eq_true, if_false]
    exact ih (fun d hd => hl d (List.mem_cons_of_mem c hd)) f s

theorem findFavAux_fail_step (f : Nat) (rest : List Char)
    (h : tryFav rest = none) :
    findFavAux (f + 1) ("favorites".data ++ rest) =
      findFavAux f ("avorites".data ++ rest) := by
  have hp : pLit "favorites" ('f' :: ("avorites".data ++ rest)) = true := by
    unfold pLit
    apply List.isPrefixOf_iff_prefix.mpr
    show 'f' :: "avorites".data <+: 'f' :: ("avorites".data ++ rest)
    exact List.cons_prefix_cons.mpr ⟨rfl, List.prefix_append _ _⟩
  show findFavAux (Nat.succ f) ('f' :: ("avorites".data ++ rest)) = _
  rw [findFavAux, hp]
  have hdrop : ('f' :: ("avorites".data ++ rest)).drop 9 = rest := by
    show (("favorites".data) ++ rest).drop 9 = rest
    rw [show (9 : Nat) = ("favorites".data).length from rfl]
    exact List.drop_left _ _
  simp only [if_true, hdrop, h]

theorem findFavAux_success (f : Nat) (rest b : List Char)
    (h : tryFav rest = some b) :
    findFavAux (f + 1) ("favorites".data ++ rest) = some b := by
  have hp : pLit "favorites" ('f' :: ("avorites".data ++ rest)) = true := by
    unfold pLit
    apply List.isPrefixOf_iff_prefix.mpr
    show 'f' :: "avorites".data <+: 'f' :: ("avorites".data ++ rest)
    exact List.cons_prefix_cons.mpr ⟨rfl, List.prefix_append _ _⟩
  show findFavAux (Nat.succ f) ('f' :: ("avorites".data ++ rest)) = _
  rw [findFavAux, hp]
  have hdrop : ('f' :: ("avorites".data ++ rest)).drop 9 = rest := by
    show (("favorites".data) ++ rest).drop 9 = rest
    rw [show (9 : Nat) = ("favorites".data).length from rfl]
    exact List.drop_left _ _
  simp only [if_true, hdrop, h]

theorem favScanBody_through (inner : List Char)
    (hbs : isSubC [rbC, ';'] inner = false) :
    ∀ (f : Nat) (tail : List Char),
      favScanBody (inner.length + f + 1) (inner ++ rbC :: ';' :: tail) =
        some inner := by
  induction inner with
  | nil =>
    intro f tail
    show favScanBody (Nat.succ (0 + f)) (rbC :: ';' :: tail) = some []
    simp [favScanBody]
  | cons c cs ih =>
    intro f tail
    have he : (c :: cs).length + f + 1 = (cs.length + f + 1) + 1 := by
      simp [List.length_cons]; omega
    rw [he]
    show favScanBody (Nat.succ (cs.length + f + 1))
      (c :: (cs ++ rbC :: ';' :: tail)) = some (c :: cs)
    simp only [favScanBody]
    by_cases hc : c = rbC
    · subst hc
      cases cs with
      | nil =>
        have h9 : ¬ (rbC = ';') := by decide
        simp only [if_pos rfl, List.nil_append]
        rw [if_neg h9]
        have := ih (by simp [isSubC]) f tail
        simp only [List.nil_append] at this ⊢
        rw [this]
        rfl
      | cons e cs' =>
        have he2 : e ≠ ';' := by
          intro hee
          subst hee
          have : isSubC [rbC, ';'] (rbC :: ';' :: cs') = true := by
            unfold isSubC
            simp [List.isPrefixOf]
          rw [this] at hbs
          cases hbs
        simp only [if_pos rfl, List.cons_append]
        rw [if_neg he2]
        have := ih (isSubC_cons_false hbs) f tail
        simp only [List.cons_append] at this ⊢
        rw [this]
        rfl
    · rw [if_neg hc]
      rw [ih (isSubC_cons_false hbs) f tail]
      rfl

/-- The inner characters of the extracted body, between the braces. -/
def innerOf (m : List (String × List String)) : List Char :=
  match m with
  | [] => ['\n']
  | _ :: _ => '\n' :: linesSep m ++ ['\n']

theorem bodyCore_eq_inner (m : List (String × List String)) :
    bodyCore m = lbC :: innerOf m ++ [rbC] := by
  cases m with
  | nil => rfl
  | cons p rest => simp [bodyCore, innerOf]

theorem tryFav_at_body (inner tail : List Char)
    (hbs : isSubC [rbC, ';'] inner = false) :
    tryFav (' ' :: '=' :: ' ' :: lbC :: (inner ++ rbC :: ';' :: tail)) =
      some (lbC :: inner ++ [rbC]) := by
  have hw1 : pyWsC ' ' = true := by decide
  have hw2 : pyWsC '=' = false := by decide
  have hw3 : pyWsC lbC = false := by decide
  unfold tryFav
  rw [List.dropWhile_cons, if_pos hw1, List.dropWhile_cons, if_neg (by simp [hw2])]
  simp only [List.dropWhile_cons, hw1, if_true, hw3, Bool.false_eq_true, if_false,
    if_pos rfl]
  have hlen : (inner ++ rbC :: ';' :: tail).length + 1 =
      inner.length + (tail.length + 2) + 1 := by
    simp [List.length_append]
  rw [hlen, favScanBody_through inner hbs (tail.length + 2) tail]
  rfl

theorem tryFav_fail_noneq (c : Char) (rest : List Char) (hc : c ≠ '=')
    (hw : pyWsC c = false) :
    tryFav (c :: rest) = none := by
  unfold tryFav
  rw [List.dropWhile_cons, if_neg (by simp [hw])]
  simp [hc]

theorem tryFav_fail_ws_noneq (w c : Char) (rest : List Char)
    (hwws : pyWsC w = true) (hc : c ≠ '=') (hw : pyWsC c = false) :
    tryFav (w :: c :: rest) = none := by
  unfold tryFav
  rw [List.dropWhile_cons, if_pos hwws, List.dropWhile_cons, if_neg (by simp [hw])]
  simp [hc]

theorem char_ne_f_of_ts {ts : String} (hts : SafeTs ts) :
    ∀ c ∈ ts.data, c ≠ 'f' := by
  intro c hc
  rcases hts c hc with h | h | h | h
  · intro he; subst he; exact absurd h (by decide)
  · subst h; decide
  · subst h; decide
  · subst h; decide

theorem findFav_serialized (ts : String) (m : List (String × List String))
    (hts : SafeTs ts)
    (hbs : isSubC [rbC, ';'] (innerOf m) = false) :
    findFav (headerText ts ++ jsContentOf (entriesChars m)) = some (bodyCore m) := by
  have htryD : tryFav (' ' :: '=' :: ' ' :: lbC ::
      (innerOf m ++ rbC :: ';' :: ['\n'])) = some (bodyCore m) := by
    rw [tryFav_at_body _ _ hbs, bodyCore_eq_inner]
  have htext : headerText ts ++ jsContentOf (entriesChars m) =
      "// Auto-generated ".data ++
        ("favorites".data ++
          (" list\n// Multi-user support - each user has their own ".data ++
            ("favorites".data ++
              ("\n// Updated: ".data ++
                (ts.data ++
                  (" UTC\n\nexport const ".data ++
                    ("favorites".data ++
                      (' ' :: '=' :: ' ' :: lbC ::
                        (innerOf m ++ rbC :: ';' :: ['\n']))))))))) := by
    rw [jsContentOf_entries m]
    unfold headerText
    have hD : " = ".data ++ (bodyCore m ++ [';', '\n']) =
        ' ' :: '=' :: ' ' :: lbC :: (innerOf m ++ rbC :: ';' :: ['\n']) := by
      rw [bodyCore_eq_inner]
      simp
    have h1 : ("// Auto-generated favorites list\n// Multi-user support - each user has their own favorites\n// Updated: ").data =
        "// Auto-generated ".data ++ "favorites".data ++
          " list\n// Multi-user support - each user has their own ".data ++
          "favorites".data ++ "\n// Updated: ".data := by decide
    have h2 : ("export const favorites = ").data =
        "export const ".data ++ "favorites".data ++ " = ".data := by decide
    rw [h1, h2, ← hD]
    simp [List.append_assoc]
  have htryB : tryFav
      (" list\n// Multi-user support - each user has their own ".data ++
        ("favorites".data ++
          ("\n// Updated: ".data ++
            (ts.data ++
              (" UTC\n\nexport const ".data ++
                ("favorites".data ++
                  (' ' :: '=' :: ' ' :: lbC ::
                    (innerOf m ++ rbC :: ';' :: ['\n'])))))))) = none := by
    show tryFav (' ' :: 'l' :: _) = none
    exact tryFav_fail_ws_noneq _ _ _ (by decide) (by decide) (by decide)
  have htryC : tryFav
      ("\n// Updated: ".data ++
        (ts.data ++
          (" UTC\n\nexport const ".data ++
            ("favorites".data ++
              (' ' :: '=' :: ' ' :: lbC ::
                (innerOf m ++ rbC :: ';' :: ['\n'])))))) = none := by
    show tryFav ('\n' :: '/' :: _) = none
    exact tryFav_fail_ws_noneq _ _ _ (by decide) (by decide) (by decide)
  unfold findFav
  rw [htext]
  have hfuel : ("// Auto-generated ".data ++
        ("favorites".data ++
          (" list\n// Multi-user support - each user has their own ".data ++
            ("favorites".data ++
              ("\n// Updated: ".data ++
                (ts.data ++
                  (" UTC\n\nexport const ".data ++
                    ("favorites".data ++
                      (' ' :: '=' :: ' ' :: lbC ::
                        (innerOf m ++ rbC :: ';' :: ['\n'])))))))))).length + 1 =
      ("// Auto-generated ").data.length +
        ((("avorites").data.length +
          ((" list\n// Multi-user support - each user has their own ").data.length +
            ((("avorites").data.length +
              (("\n// Updated: ").data.length +
                (ts.data.length +
                  ((" UTC\n\nexport const ").data.length +
                    (((innerOf m).length + 16) + 1))))) + 1))) + 1) := by
    simp [List.length_append, List.length_cons]
    omega
  rw [hfuel]
  rw [findFavAux_skip ("// Auto-generated ").data (by decide)]
  rw [findFavAux_fail_step _ _ htryB]
  rw [findFavAux_skip ("avorites").data (by decide)]
  rw [findFavAux_skip (" list\n// Multi-user support - each user has their own ").data
    (by decide)]
  rw [findFavAux_fail_step _ _ htryC]
  rw [findFavAux_skip ("avorites").data (by decide)]
  rw [findFavAux_skip ("\n// Updated: ").data (by decide)]
  rw [findFavAux_skip ts.data (char_ne_f_of_ts hts)]
  rw [findFavAux_skip (" UTC\n\nexport const ").data (by decide)]
  exact findFavAux_success _ _ _ htryD

/-! ### The normalization passes are identities on safe text -/

theorem sq2dq_id {cs : List Char} (h : ∀ c ∈ cs, c ≠ apC) : sq2dq cs = cs := by
  unfold sq2dq
  exact (List.map_congr_left (fun c hc => if_neg (h c hc))).trans (List.map_id cs)

theorem rlcAux_id : ∀ (cs : List Char), isSubC ['/', '/'] cs = false →
    ∀ f, rlcAux (cs.length + f + 1) cs false [] = cs := by
  intro cs
  induction cs with
  | nil => intro _ f; rfl
  | cons c t ih =>
    intro h f
    have he : (c :: t).length + f + 1 = (t.length + f + 1) + 1 := by
      simp [List.length_cons]; omega
    rw [he]
    show rlcAux (Nat.succ (t.length + f + 1)) (c :: t) false [] = c :: t
    simp only [rlcAux, Bool.false_eq_true, if_false]
    by_cases hc : c = '/'
    · subst hc
      rw [if_pos rfl]
      cases t with
      | nil => rfl
      | cons d t2 =>
        dsimp only
        by_cases hd : d = '/'
        · subst hd
          exfalso
          have : isSubC ['/', '/'] ('/' :: '/' :: t2) = true := by
            unfold isSubC
            simp [List.isPrefixOf]
          rw [this] at h
          cases h
        · rw [if_neg hd]
          rw [ih (isSubC_cons_false h) f]
    · rw [if_neg hc]
      rw [ih (isSubC_cons_false h) f]

theorem rlc_id {cs : List Char} (h : isSubC ['/', '/'] cs = false) :
    rlc cs = cs := by
  unfold rlc
  have he : cs.length + 1 = cs.length + 0 + 1 := by omega
  rw [he]
  exact rlcAux_id cs h 0

/-- The first non-whitespace character is a closing brace or bracket (the
condition under which a pending comma is removed by the trailing-comma
regex). -/
def cbHead (cs : List Char) : Bool :=
  match cs.dropWhile pyWsC with
  | d :: _ => d = rbC || d = ']'
  | [] => false

theorem hasCB_comma_split {t : List Char} (h : hasCB (',' :: t) = false) :
    cbHead t = false ∧ hasCB t = false := by
  rw [hasCB, if_pos rfl] at h
  unfold cbHead
  cases ht : t.dropWhile pyWsC with
  | nil =>
    rw [ht] at h
    exact ⟨rfl, h⟩
  | cons d r =>
    rw [ht] at h
    dsimp only at h ⊢
    by_cases hd : (d = rbC || d = ']') = true
    · rw [if_pos hd] at h; cases h
    · rw [if_neg hd] at h
      exact ⟨Bool.not_eq_true _ |>.mp hd, h⟩

theorem hasCB_cons_ne {c : Char} {t : List Char} (hc : c ≠ ',')
    (h : hasCB (c :: t) = false) : hasCB t = false := by
  rw [hasCB, if_neg hc] at h
  exact h

theorem rtcAux_id : ∀ (n : Nat) (cs : List Char), cs.length ≤ n →
    hasCB cs = false →
    (rtcAux (n + 1) cs none = cs ∧
      (cbHead cs = false →
        ∀ ws, rtcAux (n + 1) cs (some ws) = ',' :: ws.reverse ++ cs)) := by
  intro n
  induction n with
  | zero =>
    intro cs hlen _
    have : cs = [] := List.length_eq_zero.mp (Nat.le_zero.mp hlen)
    subst this
    exact ⟨rfl, fun _ ws => by simp [rtcAux]⟩
  | succ n ih =>
    intro cs hlen hcb
    cases cs with
    | nil => exact ⟨rfl, fun _ ws => by simp [rtcAux]⟩
    | cons c t =>
      have hlt : t.length ≤ n := by
        simp [List.length_cons] at hlen; omega
      constructor
      · show rtcAux (Nat.succ (n + 1)) (c :: t) none = c :: t
        rw [rtcAux]
        by_cases hc : c = ','
        · subst hc
          rw [if_pos rfl]
          obtain ⟨h1, h2⟩ := hasCB_comma_split hcb
          rw [(ih t hlt h2).2 h1 []]
          rfl
        · rw [if_neg hc]
          rw [(ih t hlt (hasCB_cons_ne hc hcb)).1]
      · intro hhd ws
        show rtcAux (Nat.succ (n + 1)) (c :: t) (some ws) = ',' :: ws.reverse ++ c :: t
        rw [rtcAux]
        by_cases hw : pyWsC c = true
        · rw [if_pos hw]
          have hcne : c ≠ ',' := by
            intro he; subst he; exact absurd hw (by decide)
          have hhd2 : cbHead t = false := by
            unfold cbHead at hhd ⊢
            rw [List.dropWhile_cons, if_pos hw] at hhd
            exact hhd
          rw [(ih t hlt (hasCB_cons_ne hcne hcb)).2 hhd2 (c :: ws)]
          simp
        · rw [if_neg (by simp [hw])]
          have hcbt : (c = rbC || c = ']') = false := by
            unfold cbHead at hhd
            rw [List.dropWhile_cons, if_neg (by simp [hw])] at hhd
            exact hhd
          rw [if_neg (by simp at hcbt ⊢; exact hcbt)]
          by_cases hc : c = ','
          · subst hc
            rw [if_pos rfl]
            obtain ⟨h1, h2⟩ := hasCB_comma_split hcb
            rw [(ih t hlt h2).2 h1 []]
            simp
          · rw [if_neg hc]
            rw [(ih t hlt (hasCB_cons_ne hc hcb)).1]

theorem rtc_id {cs : List Char} (h : hasCB cs = false) : rtc cs = cs :=
  (rtcAux_id cs.length cs (Nat.le_refl _) h).1

/-! ### Two-character substring occurrence with continuation -/

/-- Does the two-character pattern `a b` occur in `cs`, allowing the final
character of `cs` to pair with the next text's first character `k`? -/
def sub2c (a b : Char) : List Char → Option Char → Bool
  | [], _ => false
  | [c], k =>
    match k with
    | some y => a = c && b = y
    | none => false
  | c :: d :: cs, k => (a = c && b = d) || sub2c a b (d :: cs) k

/-- The first character of `ys`, else the continuation `k`. -/
def hdK (ys : List Char) (k : Option Char) : Option Char :=
  match ys with
  | [] => k
  | y :: _ => some y

theorem isSubC2_eq (a b : Char) : ∀ (cs : List Char),
    isSubC [a, b] cs = sub2c a b cs none := by
  intro cs
  induction cs with
  | nil => rfl
  | cons c t ih =>
    cases t with
    | nil => simp [isSubC, sub2c, List.isPrefixOf]
    | cons d t2 =>
      rw [isSubC, ih]
      show ([a, b].isPrefixOf (c :: d :: t2) || sub2c a b (d :: t2) none) = _
      rw [sub2c]
      have hpre : [a, b].isPrefixOf (c :: d :: t2) = (a = c && b = d) := by
        simp only [List.isPrefixOf, Bool.and_true]
        rfl
      rw [hpre]

theorem sub2c_append (a b : Char) : ∀ (xs ys : List Char) (k : Option Char),
    sub2c a b (xs ++ ys) k = (sub2c a b xs (hdK ys k) || sub2c a b ys k) := by
  intro xs
  induction xs with
  | nil => intro ys k; simp [sub2c]
  | cons c xs ih =>
    intro ys k
    cases xs with
    | nil =>
      cases ys with
      | nil => simp [sub2c, hdK]
      | cons y t =>
        show sub2c a b (c :: y :: t) k = _
        rw [sub2c]
        show _ = (sub2c a b [c] (hdK (y :: t) k) || sub2c a b (y :: t) k)
        rw [show hdK (y :: t) k = some y from rfl]
        rfl
    | cons d xs2 =>
      show sub2c a b (c :: d :: (xs2 ++ ys)) k = _
      rw [sub2c]
      have ih2 := ih ys k
      rw [show (d :: xs2) ++ ys = d :: (xs2 ++ ys) from rfl] at ih2
      rw [ih2, sub2c, Bool.or_assoc]

theorem sub2c_no_a {a b : Char} : ∀ {cs : List Char}, (∀ c ∈ cs, c ≠ a) →
    ∀ k, sub2c a b cs k = false := by
  intro cs
  induction cs with
  | nil => intro _ k; rfl
  | cons c t ih =>
    intro h k
    have hca : (a = c) = False := by
      simp only [eq_iff_iff, iff_false]
      intro he
      exact h c (List.mem_cons_self c t) he.symm
    cases t with
    | nil =>
      cases k with
      | none => rfl
      | some y => show (a = c && b = y) = false; simp [hca]
    | cons d t2 =>
      rw [sub2c]
      rw [ih (fun x hx => h x (List.mem_cons_of_mem c hx)) k]
      simp [hca]

theorem sub2c_irrel {a b y : Char} (hb : b ≠ y) : ∀ (cs : List Char),
    sub2c a b cs (some y) = sub2c a b cs none := by
  intro cs
  induction cs with
  | nil => rfl
  | cons c t ih =>
    cases t with
    | nil =>
      show (a = c && b = y) = false
      simp only [Bool.and_eq_false_iff]
      right
      simpa using hb
    | cons d t2 =>
      rw [sub2c, sub2c, ih]

/-! ### Comma-bracket occurrence with continuation -/

/-- The first non-whitespace character of `ys`, else the continuation. -/
def headNWc (ys : List Char) (k : Option Char) : Option Char :=
  match ys.dropWhile pyWsC with
  | d :: _ => some d
  | [] => k

/-- Consult the continuation character when a comma's whitespace run
reaches the end of the scanned segment. -/
def kBr (k : Option Char) (cont : Bool) : Bool :=
  match k with
  | some d => if d = rbC || d = ']' then true else cont
  | none => cont

/-- `hasCB` with a one-character continuation: a comma whose whitespace run
reaches the end of the list consults `k` for the first following
non-whitespace character. -/
def hasCBc : List Char → Option Char → Bool
  | [], _ => false
  | c :: cs, k =>
    if c = ',' then
      match cs.dropWhile pyWsC with
      | d :: _ => if d = rbC || d = ']' then true else hasCBc cs k
      | [] => kBr k (hasCBc cs k)
    else hasCBc cs k

theorem dropWhile_append_match (p : Char → Bool) (xs ys : List Char) :
    (xs ++ ys).dropWhile p =
      (match xs.dropWhile p with
       | [] => ys.dropWhile p
       | c :: t => c :: t ++ ys) := by
  rw [List.dropWhile_append]
  cases h : xs.dropWhile p with
  | nil => simp
  | cons c t => simp

theorem hasCB_eq_c : ∀ (cs : List Char), hasCB cs = hasCBc cs none := by
  intro cs
  induction cs with
  | nil => rfl
  | cons c t ih =>
    rw [hasCB, hasCBc]
    by_cases hc : c = ','
    · rw [if_pos hc, if_pos hc]
      cases h : t.dropWhile pyWsC with
      | nil =>
        show hasCB t = kBr none (hasCBc t none)
        rw [ih]
        rfl
      | cons d r =>
        dsimp only
        rw [ih]
    · rw [if_neg hc, if_neg hc, ih]

theorem hasCBc_append : ∀ (xs ys : List Char) (k : Option Char),
    hasCBc (xs ++ ys) k = (hasCBc xs (headNWc ys k) || hasCBc ys k) := by
  intro xs
  induction xs with
  | nil => intro ys k; simp [hasCBc]
  | cons c xs ih =>
    intro ys k
    show hasCBc (c :: (xs ++ ys)) k = (hasCBc (c :: xs) (headNWc ys k) || hasCBc ys k)
    rw [hasCBc, hasCBc]
    by_cases hc : c = ','
    · rw [if_pos hc, if_pos hc]
      rw [dropWhile_append_match pyWsC xs ys]
      cases hx : xs.dropWhile pyWsC with
      | cons d t =>
        show (if d = rbC || d = ']' then true else hasCBc (xs ++ ys) k) =
          ((if d = rbC || d = ']' then true else hasCBc xs (headNWc ys k)) || hasCBc ys k)
        by_cases hd : (d = rbC || d = ']') = true
        · rw [if_pos hd, if_pos hd]
          simp
        · rw [if_neg hd, if_neg hd, ih ys k]
      | nil =>
        cases hy : ys.dropWhile pyWsC with
        | cons d t =>
          have hk : headNWc ys k = some d := by
            unfold headNWc
            rw [hy]
          rw [hk]
          show (if d = rbC || d = ']' then true else hasCBc (xs ++ ys) k) =
            (kBr (some d) (hasCBc xs (some d)) || hasCBc ys k)
          simp only [kBr]
          by_cases hd : (d = rbC || d = ']') = true
          · rw [if_pos hd, if_pos hd]
            simp
          · rw [if_neg hd, if_neg hd, ih ys k, hk]
        | nil =>
          have hk : headNWc ys k = k := by
            unfold headNWc
            rw [hy]
          rw [hk]
          show kBr k (hasCBc (xs ++ ys) k) = (kBr k (hasCBc xs k) || hasCBc ys k)
          cases k with
          | none =>
            simp only [kBr]
            rw [ih ys none, hk]
          | some d =>
            simp only [kBr]
            by_cases hd : (d = rbC || d = ']') = true
            · rw [if_pos hd, if_pos hd]
              simp
            · rw [if_neg hd, if_neg hd, ih ys (some d), hk]
    · rw [if_neg hc, if_neg hc, ih ys k]

theorem hasCBc_irrel {y : Char} (h1 : y ≠ rbC) (h2 : y ≠ ']') :
    ∀ (cs : List Char), hasCBc cs (some y) = hasCBc cs none := by
  intro cs
  induction cs with
  | nil => rfl
  | cons c t ih =>
    rw [hasCBc, hasCBc]
    by_cases hc : c = ','
    · rw [if_pos hc, if_pos hc]
      cases ht : t.dropWhile pyWsC with
      | cons d r =>
        dsimp only
        by_cases hd : (d = rbC || d = ']') = true
        · rw [if_pos hd, if_pos hd]
        · rw [if_neg hd, if_neg hd, ih]
      | nil =>
        show kBr (some y) (hasCBc t (some y)) = kBr none (hasCBc t none)
        simp only [kBr]
        rw [if_neg (by simp [h1, h2]), ih]
    · rw [if_neg hc, if_neg hc, ih]

theorem hasCBc_no_comma : ∀ {cs : List Char}, (∀ c ∈ cs, c ≠ ',') →
    ∀ k, hasCBc cs k = false := by
  intro cs
  induction cs with
  | nil => intro _ _; rfl
  | cons c t ih =>
    intro h k
    rw [hasCBc, if_neg (h c (List.mem_cons_self c t))]
    exact ih (fun x hx => h x (List.mem_cons_of_mem c hx)) k

/-! ### Structure of the serialized body: occurrence facts -/

/-- Right-recursive form of the quoted comma-joined ids. -/
def idsCharsR : List String → List Char
  | [] => []
  | [s] => qC :: s.data ++ [qC]
  | s :: s2 :: rest => qC :: s.data ++ [qC, ',', ' '] ++ idsCharsR (s2 :: rest)

theorem idsChars_eq_R (ids : List String) : idsChars ids = idsCharsR ids := by
  induction ids with
  | nil => rfl
  | cons s rest ih =>
    cases rest with
    | nil => simp [idsChars, idsCharsR, List.intercalate, List.intersperse]
    | cons s2 rest2 =>
      rw [idsCharsR, ← ih]
      simp [idsChars, List.intercalate, List.intersperse]

theorem headNWc_cons_ws {c : Char} (t : List Char) (k : Option Char)
    (hw : pyWsC c = true) : headNWc (c :: t) k = headNWc t k := by
  unfold headNWc
  rw [List.dropWhile_cons, if_pos hw]

theorem headNWc_cons_nws {c : Char} (t : List Char) (k : Option Char)
    (hw : pyWsC c = false) : headNWc (c :: t) k = some c := by
  unfold headNWc
  rw [List.dropWhile_cons, if_neg (by simp [hw])]

theorem headNWc_append : ∀ (xs ys : List Char) (k : Option Char),
    headNWc (xs ++ ys) k = headNWc xs (headNWc ys k) := by
  intro xs ys k
  induction xs with
  | nil => rfl
  | cons c t ih =>
    show headNWc (c :: (t ++ ys)) k = headNWc (c :: t) (headNWc ys k)
    by_cases hw : pyWsC c = true
    · rw [headNWc_cons_ws _ _ hw, headNWc_cons_ws _ _ hw, ih]
    · rw [headNWc_cons_nws _ _ (Bool.not_eq_true _ |>.mp hw),
        headNWc_cons_nws _ _ (Bool.not_eq_true _ |>.mp hw)]

theorem headNWc_idsCharsR_cons (s : String) (rest : List String) (k : Option Char) :
    headNWc (idsCharsR (s :: rest)) k = some qC := by
  cases rest with
  | nil =>
    show headNWc (qC :: (s.data ++ [qC])) k = some qC
    exact headNWc_cons_nws _ _ (by decide)
  | cons s2 rest2 =>
    show headNWc (qC :: (s.data ++ [qC, ',', ' '] ++ idsCharsR (s2 :: rest2))) k = some qC
    exact headNWc_cons_nws _ _ (by decide)

theorem headNWc_lineChars (u : String) (ids : List String) (k : Option Char) :
    headNWc (lineChars u ids) k = some qC := by
  show headNWc (' ' :: ' ' :: qC :: _) k = some qC
  rw [headNWc_cons_ws _ _ (by decide), headNWc_cons_ws _ _ (by decide)]
  exact headNWc_cons_nws _ _ (by decide)

theorem headNWc_linesSep (p : String × List String)
    (rest : List (String × List String)) (k : Option Char) :
    headNWc (linesSep (p :: rest)) k = some qC := by
  cases rest with
  | nil => exact headNWc_lineChars p.1 p.2 k
  | cons q rest2 =>
    show headNWc (lineChars p.1 p.2 ++ (',' :: '\n' :: linesSep (q :: rest2))) k = some qC
    rw [headNWc_append, headNWc_lineChars]

theorem sub2c_idsCharsR (a b : Char)
    (haq : qC ≠ a) (hac : ',' ≠ a) (hasp : ' ' ≠ a) (hbq : b ≠ qC) :
    ∀ (ids : List String), (∀ s ∈ ids, sub2c a b s.data none = false) →
    ∀ k, sub2c a b (idsCharsR ids) k = false := by
  intro ids
  induction ids with
  | nil => intro _ k; rfl
  | cons s rest ih =>
    intro hids k
    have hs : sub2c a b s.data none = false :=
      hids s (List.mem_cons_self s rest)
    cases rest with
    | nil =>
      show sub2c a b ([qC] ++ (s.data ++ [qC])) k = false
      rw [sub2c_append, sub2c_append]
      have e1 : sub2c a b [qC] (hdK (s.data ++ [qC]) k) = false :=
        sub2c_no_a (fun c hc => by
          rw [List.mem_singleton] at hc; subst hc; exact haq) _
      have e2 : sub2c a b s.data (hdK [qC] k) = false := by
        rw [show hdK [qC] k = some qC from rfl, sub2c_irrel hbq, hs]
      have e3 : sub2c a b [qC] k = false :=
        sub2c_no_a (fun c hc => by
          rw [List.mem_singleton] at hc; subst hc; exact haq) _
      rw [e1, e2, e3]
      rfl
    | cons s2 rest2 =>
      show sub2c a b ([qC] ++ ((s.data ++ [qC, ',', ' ']) ++ idsCharsR (s2 :: rest2))) k
        = false
      rw [List.append_assoc s.data, sub2c_append, sub2c_append, sub2c_append]
      have e1 : sub2c a b [qC]
          (hdK (s.data ++ ([qC, ',', ' '] ++ idsCharsR (s2 :: rest2))) k) = false :=
        sub2c_no_a (fun c hc => by
          rw [List.mem_singleton] at hc; subst hc; exact haq) _
      have e2 : sub2c a b s.data
          (hdK ([qC, ',', ' '] ++ idsCharsR (s2 :: rest2)) k) = false := by
        rw [show hdK ([qC, ',', ' '] ++ idsCharsR (s2 :: rest2)) k = some qC from rfl,
          sub2c_irrel hbq, hs]
      have e3 : sub2c a b [qC, ',', ' '] (hdK (idsCharsR (s2 :: rest2)) k) = false :=
        sub2c_no_a (fun c hc => by
          simp only [List.mem_cons, List.not_mem_nil, or_false] at hc
          rcases hc with rfl | rfl | rfl
          · exact haq
          · exact hac
          · exact hasp) _
      have e4 : sub2c a b (idsCharsR (s2 :: rest2)) k = false :=
        ih (fun t ht => hids t (List.mem_cons_of_mem s ht)) k
      rw [e1, e2, e3, e4]
      rfl

theorem sub2c_lineChars (a b : Char)
    (haq : qC ≠ a) (hac : ',' ≠ a) (hasp : ' ' ≠ a) (hcol : ':' ≠ a)
    (hlb : '[' ≠ a) (hrb : ']' ≠ a) (hbq : b ≠ qC)
    (u : String) (ids : List String)
    (hu : sub2c a b u.data none = false)
    (hids : ∀ s ∈ ids, sub2c a b s.data none = false) :
    ∀ k, sub2c a b (lineChars u ids) k = false := by
  intro k
  have hsplit : lineChars u ids =
      [' ', ' ', qC] ++ (u.data ++ ([qC, ':', ' ', '['] ++ (idsCharsR ids ++ [']']))) := by
    rw [lineChars, idsChars_eq_R]
    simp [List.append_assoc]
  rw [hsplit, sub2c_append, sub2c_append, sub2c_append, sub2c_append]
  have e1 : sub2c a b [' ', ' ', qC]
      (hdK (u.data ++ ([qC, ':', ' ', '['] ++ (idsCharsR ids ++ [']']))) k) = false :=
    sub2c_no_a (fun c hc => by
      simp only [List.mem_cons, List.not_mem_nil, or_false] at hc
      rcases hc with rfl | rfl | rfl
      · exact hasp
      · exact hasp
      · exact haq) _
  have e2 : sub2c a b u.data
      (hdK ([qC, ':', ' ', '['] ++ (idsCharsR ids ++ [']'])) k) = false := by
    rw [show hdK ([qC, ':', ' ', '['] ++ (idsCharsR ids ++ [']'])) k = some qC from rfl,
      sub2c_irrel hbq, hu]
  have e3 : sub2c a b [qC, ':', ' ', '['] (hdK (idsCharsR ids ++ [']']) k) = false :=
    sub2c_no_a (fun c hc => by
      simp only [List.mem_cons, List.not_mem_nil, or_false] at hc
      rcases hc with rfl | rfl | rfl | rfl
      · exact haq
      · exact hcol
      · exact hasp
      · exact hlb) _
  have e4 : sub2c a b (idsCharsR ids) (hdK [']'] k) = false :=
    sub2c_idsCharsR a b haq hac hasp hbq ids hids _
  have e5 : sub2c a b [']'] k = false :=
    sub2c_no_a (fun c hc => by
      rw [List.mem_singleton] at hc; subst hc; exact hrb) _
  rw [e1, e2, e3, e4, e5]
  rfl

theorem sub2c_linesSep (a b : Char)
    (haq : qC ≠ a) (hac : ',' ≠ a) (hasp : ' ' ≠ a) (hcol : ':' ≠ a)
    (hlb : '[' ≠ a) (hrb : ']' ≠ a) (hnl : '\n' ≠ a) (hbq : b ≠ qC) :
    ∀ (m : List (String × List String)),
      (∀ p ∈ m, sub2c a b p.1.data none = false ∧
        ∀ s ∈ p.2, sub2c a b s.data none = false) →
    ∀ k, sub2c a b (linesSep m) k = false := by
  intro m
  induction m with
  | nil => intro _ k; rfl
  | cons p rest ih =>
    intro hm k
    obtain ⟨hp1, hp2⟩ := hm p (List.mem_cons_self p rest)
    cases rest with
    | nil => exact sub2c_lineChars a b haq hac hasp hcol hlb hrb hbq p.1 p.2 hp1 hp2 k
    | cons q rest2 =>
      show sub2c a b (lineChars p.1 p.2 ++ ([',', '\n'] ++ linesSep (q :: rest2))) k
        = false
      rw [sub2c_append, sub2c_append]
      have e1 : sub2c a b (lineChars p.1 p.2)
          (hdK ([',', '\n'] ++ linesSep (q :: rest2)) k) = false :=
        sub2c_lineChars a b haq hac hasp hcol hlb hrb hbq p.1 p.2 hp1 hp2 _
      have e2 : sub2c a b [',', '\n'] (hdK (linesSep (q :: rest2)) k) = false :=
        sub2c_no_a (fun c hc => by
          simp only [List.mem_cons, List.not_mem_nil, or_false] at hc
          rcases hc with rfl | rfl
          · exact hac
          · exact hnl) _
      have e3 : sub2c a b (linesSep (q :: rest2)) k = false :=
        ih (fun r hr => hm r (List.mem_cons_of_mem p hr)) k
      rw [e1, e2, e3]
      rfl

theorem sub2c_innerOf (a b : Char)
    (haq : qC ≠ a) (hac : ',' ≠ a) (hasp : ' ' ≠ a) (hcol : ':' ≠ a)
    (hlb : '[' ≠ a) (hrb : ']' ≠ a) (hnl : '\n' ≠ a) (hbq : b ≠ qC)
    (m : List (String × List String))
    (hm : ∀ p ∈ m, sub2c a b p.1.data none = false ∧
      ∀ s ∈ p.2, sub2c a b s.data none = false) :
    ∀ k, sub2c a b (innerOf m) k = false := by
  intro k
  cases m with
  | nil =>
    show sub2c a b ['\n'] k = false
    exact sub2c_no_a (fun c hc => by
      rw [List.mem_singleton] at hc; subst hc; exact hnl) _
  | cons p rest =>
    show sub2c a b (['\n'] ++ (linesSep (p :: rest) ++ ['\n'])) k = false
    rw [sub2c_append, sub2c_append]
    have e1 : sub2c a b ['\n'] (hdK (linesSep (p :: rest) ++ ['\n']) k) = false :=
      sub2c_no_a (fun c hc => by
        rw [List.mem_singleton] at hc; subst hc; exact hnl) _
    have e2 : sub2c a b (linesSep (p :: rest)) (hdK ['\n'] k) = false :=
      sub2c_linesSep a b haq hac hasp hcol hlb hrb hnl hbq (p :: rest) hm _
    have e3 : sub2c a b ['\n'] k = false :=
      sub2c_no_a (fun c hc => by
        rw [List.mem_singleton] at hc; subst hc; exact hnl) _
    rw [e1, e2, e3]
    rfl

theorem hasCBc_idsCharsR : ∀ (ids : List String),
    (∀ s ∈ ids, hasCB s.data = false) →
    ∀ k, hasCBc (idsCharsR ids) k = false := by
  intro ids
  induction ids with
  | nil => intro _ k; rfl
  | cons s rest ih =>
    intro hids k
    have hs : hasCB s.data = false := hids s (List.mem_cons_self s rest)
    cases rest with
    | nil =>
      show hasCBc ([qC] ++ (s.data ++ [qC])) k = false
      rw [hasCBc_append, hasCBc_append]
      have e1 : hasCBc [qC] (headNWc (s.data ++ [qC]) k) = false :=
        hasCBc_no_comma (fun c hc => by
          rw [List.mem_singleton] at hc; subst hc; decide) _
      have e2 : hasCBc s.data (headNWc [qC] k) = false := by
        rw [headNWc_cons_nws _ _ (by decide), hasCBc_irrel (by decide) (by decide),
          ← hasCB_eq_c, hs]
      have e3 : hasCBc [qC] k = false :=
        hasCBc_no_comma (fun c hc => by
          rw [List.mem_singleton] at hc; subst hc; decide) _
      rw [e1, e2, e3]
      rfl
    | cons s2 rest2 =>
      show hasCBc ([qC] ++ ((s.data ++ [qC, ',', ' ']) ++ idsCharsR (s2 :: rest2))) k
        = false
      rw [List.append_assoc s.data, hasCBc_append, hasCBc_append, hasCBc_append]
      have e1 : hasCBc [qC]
          (headNWc (s.data ++ ([qC, ',', ' '] ++ idsCharsR (s2 :: rest2))) k) = false :=
        hasCBc_no_comma (fun c hc => by
          rw [List.mem_singleton] at hc; subst hc; decide) _
      have e2 : hasCBc s.data
          (headNWc ([qC, ',', ' '] ++ idsCharsR (s2 :: rest2)) k) = false := by
        rw [show ([qC, ',', ' '] ++ idsCharsR (s2 :: rest2)) =
            qC :: ([',', ' '] ++ idsCharsR (s2 :: rest2)) from rfl,
          headNWc_cons_nws _ _ (by decide),
          hasCBc_irrel (by decide) (by decide), ← hasCB_eq_c, hs]
      have e3 : hasCBc [qC, ',', ' '] (headNWc (idsCharsR (s2 :: rest2)) k) = false := by
        rw [headNWc_idsCharsR_cons]
        decide
      have e4 : hasCBc (idsCharsR (s2 :: rest2)) k = false :=
        ih (fun t ht => hids t (List.mem_cons_of_mem s ht)) k
      rw [e1, e2, e3, e4]
      rfl

theorem hasCBc_lineChars (u : String) (ids : List String)
    (hu : hasCB u.data = false) (hids : ∀ s ∈ ids, hasCB s.data = false) :
    ∀ k, hasCBc (lineChars u ids) k = false := by
  intro k
  have hsplit : lineChars u ids =
      [' ', ' ', qC] ++ (u.data ++ ([qC, ':', ' ', '['] ++ (idsCharsR ids ++ [']']))) := by
    rw [lineChars, idsChars_eq_R]
    simp [List.append_assoc]
  rw [hsplit, hasCBc_append, hasCBc_append, hasCBc_append, hasCBc_append]
  have e1 : hasCBc [' ', ' ', qC]
      (headNWc (u.data ++ ([qC, ':', ' ', '['] ++ (idsCharsR ids ++ [']']))) k) = false :=
    hasCBc_no_comma (fun c hc => by
      simp only [List.mem_cons, List.not_mem_nil, or_false] at hc
      rcases hc with rfl | rfl | rfl <;> decide) _
  have e2 : hasCBc u.data
      (headNWc ([qC, ':', ' ', '['] ++ (idsCharsR ids ++ [']'])) k) = false := by
    rw [show ([qC, ':', ' ', '['] ++ (idsCharsR ids ++ [']'])) =
        qC :: ([':', ' ', '['] ++ (idsCharsR ids ++ [']'])) from rfl,
      headNWc_cons_nws _ _ (by decide),
      hasCBc_irrel (by decide) (by decide), ← hasCB_eq_c, hu]
  have e3 : hasCBc [qC, ':', ' ', '['] (headNWc (idsCharsR ids ++ [']']) k) = false :=
    hasCBc_no_comma (fun c hc => by
      simp only [List.mem_cons, List.not_mem_nil, or_false] at hc
      rcases hc with rfl | rfl | rfl | rfl <;> decide) _
  have e4 : hasCBc (idsCharsR ids) (headNWc [']'] k) = false :=
    hasCBc_idsCharsR ids hids _
  have e5 : hasCBc [']'] k = false :=
    hasCBc_no_comma (fun c hc => by
      rw [List.mem_singleton] at hc; subst hc; decide) _
  rw [e1, e2, e3, e4, e5]
  rfl

theorem hasCBc_linesSep : ∀ (m : List (String × List String)),
    (∀ p ∈ m, hasCB p.1.data = false ∧ ∀ s ∈ p.2, hasCB s.data = false) →
    ∀ k, hasCBc (linesSep m) k = false := by
  intro m
  induction m with
  | nil => intro _ k; rfl
  | cons p rest ih =>
    intro hm k
    obtain ⟨hp1, hp2⟩ := hm p (List.mem_cons_self p rest)
    cases rest with
    | nil => exact hasCBc_lineChars p.1 p.2 hp1 hp2 k
    | cons q rest2 =>
      show hasCBc (lineChars p.1 p.2 ++ ([',', '\n'] ++ linesSep (q :: rest2))) k
        = false
      rw [hasCBc_append, hasCBc_append]
      have e1 : hasCBc (lineChars p.1 p.2)
          (headNWc ([',', '\n'] ++ linesSep (q :: rest2)) k) = false :=
        hasCBc_lineChars p.1 p.2 hp1 hp2 _
      have e2 : hasCBc [',', '\n'] (headNWc (linesSep (q :: rest2)) k) = false := by
        rw [headNWc_linesSep]
        decide
      have e3 : hasCBc (linesSep (q :: rest2)) k = false :=
        ih (fun r hr => hm r (List.mem_cons_of_mem p hr)) k
      rw [e1, e2, e3]
      rfl

theorem hasCB_bodyCore (m : List (String × List String))
    (hm : ∀ p ∈ m, hasCB p.1.data = false ∧ ∀ s ∈ p.2, hasCB s.data = false) :
    hasCB (bodyCore m) = false := by
  cases m with
  | nil => decide
  | cons p rest =>
    rw [hasCB_eq_c]
    show hasCBc ([lbC, '\n'] ++ (linesSep (p :: rest) ++ ['\n', rbC])) none = false
    rw [hasCBc_append, hasCBc_append]
    have e1 : hasCBc [lbC, '\n']
        (headNWc (linesSep (p :: rest) ++ ['\n', rbC]) none) = false :=
      hasCBc_no_comma (fun c hc => by
        simp only [List.mem_cons, List.not_mem_nil, or_false] at hc
        rcases hc with rfl | rfl <;> decide) _
    have e2 : hasCBc (linesSep (p :: rest)) (headNWc ['\n', rbC] none) = false :=
      hasCBc_linesSep (p :: rest) hm _
    have e3 : hasCBc ['\n', rbC] none = false :=
      hasCBc_no_comma (fun c hc => by
        simp only [List.mem_cons, List.not_mem_nil, or_false] at hc
        rcases hc with rfl | rfl <;> decide) _
    rw [e1, e2, e3]
    rfl

theorem no_ap_idsCharsR : ∀ (ids : List String),
    (∀ s ∈ ids, ∀ c ∈ s.data, c ≠ apC) →
    ∀ c ∈ idsCharsR ids, c ≠ apC := by
  intro ids
  induction ids with
  | nil => intro _ c hc; cases hc
  | cons s rest ih =>
    intro h
    have hs := h s (List.mem_cons_self s rest)
    cases rest with
    | nil =>
      intro c hc
      rcases List.mem_cons.mp hc with rfl | hc2
      · decide
      · rcases List.mem_append.mp hc2 with hc3 | hc3
        · exact hs c hc3
        · rw [List.mem_singleton] at hc3; subst hc3; decide
    | cons s2 rest2 =>
      intro c hc
      rcases List.mem_cons.mp hc with rfl | hc2
      · decide
      · rcases List.mem_append.mp hc2 with hc3 | hc3
        · rcases List.mem_append.mp hc3 with hc4 | hc4
          · exact hs c hc4
          · fin_cases hc4 <;> decide
        · exact ih (fun t ht => h t (List.mem_cons_of_mem s ht)) c hc3

theorem no_ap_lineChars (u : String) (ids : List String)
    (hu : ∀ c ∈ u.data, c ≠ apC)
    (hids : ∀ s ∈ ids, ∀ c ∈ s.data, c ≠ apC) :
    ∀ c ∈ lineChars u ids, c ≠ apC := by
  have hsplit : lineChars u ids =
      [' ', ' ', qC] ++ (u.data ++ ([qC, ':', ' ', '['] ++ (idsCharsR ids ++ [']']))) := by
    rw [lineChars, idsChars_eq_R]
    simp [List.append_assoc]
  rw [hsplit]
  intro c hc
  rcases List.mem_append.mp hc with h1 | h1
  · fin_cases h1 <;> decide
  rcases List.mem_append.mp h1 with h2 | h2
  · exact hu c h2
  rcases List.mem_append.mp h2 with h3 | h3
  · fin_cases h3 <;> decide
  rcases List.mem_append.mp h3 with h4 | h4
  · exact no_ap_idsCharsR ids hids c h4
  · rw [List.mem_singleton] at h4; subst h4; decide

theorem no_ap_linesSep : ∀ (m : List (String × List String)),
    (∀ p ∈ m, (∀ c ∈ p.1.data, c ≠ apC) ∧ ∀ s ∈ p.2, ∀ c ∈ s.data, c ≠ apC) →
    ∀ c ∈ linesSep m, c ≠ apC := by
  intro m
  induction m with
  | nil => intro _ c hc; cases hc
  | cons p rest ih =>
    intro hm
    obtain ⟨hp1, hp2⟩ := hm p (List.mem_cons_self p rest)
    cases rest with
    | nil => exact no_ap_lineChars p.1 p.2 hp1 hp2
    | cons q rest2 =>
      intro c hc
      rcases List.mem_append.mp hc with h1 | h1
      · exact no_ap_lineChars p.1 p.2 hp1 hp2 c h1
      · rcases List.mem_cons.mp h1 with rfl | h2
        · decide
        rcases List.mem_cons.mp h2 with rfl | h3
        · decide
        · exact ih (fun r hr => hm r (List.mem_cons_of_mem p hr)) c h3

theorem no_ap_bodyCore (m : List (String × List String))
    (hm : ∀ p ∈ m, (∀ c ∈ p.1.data, c ≠ apC) ∧ ∀ s ∈ p.2, ∀ c ∈ s.data, c ≠ apC) :
    ∀ c ∈ bodyCore m, c ≠ apC := by
  cases m with
  | nil => intro c hc; fin_cases hc <;> decide
  | cons p rest =>
    intro c hc
    rcases List.mem_cons.mp hc with rfl | h1
    · decide
    rcases List.mem_cons.mp h1 with rfl | h2
    · decide
    rcases List.mem_append.mp h2 with h3 | h3
    · exact no_ap_linesSep (p :: rest) hm c h3
    · fin_cases h3 <;> decide

/-- SafeMap gives the per-entry facts the structural lemmas consume. -/
theorem safeMap_facts {m : List (String × List String)} (hm : SafeMap m) :
    ∀ p ∈ m,
      ((∀ c ∈ p.1.data, okChar c) ∧ isSubC ['/', '/'] p.1.data = false ∧
        isSubC [rbC, ';'] p.1.data = false ∧ hasCB p.1.data = false) ∧
      ∀ s ∈ p.2, (∀ c ∈ s.data, okChar c) ∧ isSubC ['/', '/'] s.data = false ∧
        isSubC [rbC, ';'] s.data = false ∧ hasCB s.data = false := by
  intro p hp
  obtain ⟨h1, h2⟩ := hm.2 p hp
  exact ⟨h1, fun s hs => h2 s hs⟩

theorem bodyCore_no_slashslash (m : List (String × List String)) (hm : SafeMap m) :
    isSubC ['/', '/'] (bodyCore m) = false := by
  rw [isSubC2_eq, bodyCore_eq_inner]
  show sub2c '/' '/' ([lbC] ++ (innerOf m ++ [rbC])) none = false
  rw [sub2c_append, sub2c_append]
  have e1 : sub2c '/' '/' [lbC] (hdK (innerOf m ++ [rbC]) none) = false :=
    sub2c_no_a (fun c hc => by
      rw [List.mem_singleton] at hc; subst hc; decide) _
  have e2 : sub2c '/' '/' (innerOf m) (hdK [rbC] none) = false :=
    sub2c_innerOf '/' '/' (by decide) (by decide) (by decide) (by decide)
      (by decide) (by decide) (by decide) (by decide) m
      (fun p hp => by
        obtain ⟨⟨_, hsl, _, _⟩, hids⟩ := safeMap_facts hm p hp
        refine ⟨by rw [← isSubC2_eq]; exact hsl, fun s hs => ?_⟩
        obtain ⟨_, hsl2, _, _⟩ := hids s hs
        rw [← isSubC2_eq]
        exact hsl2) _
  have e3 : sub2c '/' '/' [rbC] none = false :=
    sub2c_no_a (fun c hc => by
      rw [List.mem_singleton] at hc; subst hc; decide) _
  rw [e1, e2, e3]
  rfl

theorem innerOf_no_rbsemi (m : List (String × List String)) (hm : SafeMap m) :
    isSubC [rbC, ';'] (innerOf m) = false := by
  rw [isSubC2_eq]
  have := sub2c_innerOf rbC ';' (by decide) (by decide) (by decide) (by decide)
    (by decide) (by decide) (by decide) (by decide) m
    (fun p hp => by
      obtain ⟨⟨_, _, hbr, _⟩, hids⟩ := safeMap_facts hm p hp
      refine ⟨by rw [← isSubC2_eq]; exact hbr, fun s hs => ?_⟩
      obtain ⟨_, _, hbr2, _⟩ := hids s hs
      rw [← isSubC2_eq]
      exact hbr2) none
  exact this

theorem bodyCore_no_ap (m : List (String × List String)) (hm : SafeMap m) :
    ∀ c ∈ bodyCore m, c ≠ apC :=
  no_ap_bodyCore m (fun p hp => by
    obtain ⟨⟨hok, _, _, _⟩, hids⟩ := safeMap_facts hm p hp
    refine ⟨fun c hc => (hok c hc).2.2.1, fun s hs c hc => ?_⟩
    obtain ⟨hok2, _, _, _⟩ := hids s hs
    exact (hok2 c hc).2.2.1)

theorem bodyCore_no_cb (m : List (String × List String)) (hm : SafeMap m) :
    hasCB (bodyCore m) = false :=
  hasCB_bodyCore m (fun p hp => by
    obtain ⟨⟨_, _, _, hcb⟩, hids⟩ := safeMap_facts hm p hp
    exact ⟨hcb, fun s hs => (hids s hs).2.2.2⟩)

/-! ### Strict JSON parse of the serialized body -/

theorem pJStringAux_step (f : Nat) (acc : List Char) (c : Char) (cs : List Char)
    (hq : c ≠ qC) (hbs : c ≠ bsC) (h32 : ¬ c.toNat < 32) :
    pJStringAux (Nat.succ f) acc (c :: cs) = pJStringAux f (c :: acc) cs := by
  rw [pJStringAux.eq_def]
  simp only [if_neg hq, if_neg hbs, if_neg h32]

theorem pJStringAux_safe : ∀ (l : List Char), (∀ c ∈ l, okChar c) →
    ∀ (f : Nat) (acc rest : List Char),
      pJStringAux (l.length + (f + 1)) acc (l ++ qC :: rest) =
        some (String.mk (acc.reverse ++ l), rest) := by
  intro l
  induction l with
  | nil =>
    intro _ f acc rest
    show pJStringAux (Nat.succ f) acc (qC :: rest) =
      some (String.mk (acc.reverse ++ []), rest)
    simp only [List.append_nil]
    rfl
  | cons c t ih =>
    intro h f acc rest
    obtain ⟨h32, hq, hap, hbs⟩ := h c (List.mem_cons_self c t)
    have he : (c :: t).length + (f + 1) = (t.length + (f + 1)) + 1 := by
      simp [List.length_cons]; omega
    rw [he]
    show pJStringAux (Nat.succ (t.length + (f + 1))) acc (c :: (t ++ qC :: rest)) = _
    rw [pJStringAux_step _ _ _ _ hq hbs (by omega)]
    rw [ih (fun d hd => h d (List.mem_cons_of_mem c hd)) f (c :: acc) rest]
    simp

theorem pJString_safe (s : String) (hs : ∀ c ∈ s.data, okChar c) (rest : List Char) :
    pJString (s.data ++ qC :: rest) = some (s, rest) := by
  unfold pJString
  have he : (s.data ++ qC :: rest).length + 1 =
      s.data.length + ((rest.length + 1) + 1) := by
    simp [List.length_append]
    omega
  rw [he, pJStringAux_safe s.data hs (rest.length + 1) [] rest]
  rfl

/-- Fuel needed by the `elems` loop: two units per element. -/
def elemsCost : List String → Nat
  | [] => 0
  | _ :: rest => elemsCost rest + 2

/-- The array elements text from the opening quote of the first element. -/
def elemsText : List String → List Char → List Char
  | [], tail => tail
  | [s], tail => qC :: s.data ++ qC :: ']' :: tail
  | s :: s2 :: rest, tail => qC :: s.data ++ qC :: ',' :: ' ' :: elemsText (s2 :: rest) tail

theorem idsCharsR_text (tail : List Char) : ∀ (ids : List String), ids ≠ [] →
    idsCharsR ids ++ ']' :: tail = elemsText ids tail := by
  intro ids
  induction ids with
  | nil => intro h; exact absurd rfl h
  | cons s rest ih =>
    intro _
    cases rest with
    | nil => simp [idsCharsR, elemsText]
    | cons s2 rest2 =>
      rw [idsCharsR, elemsText, ← ih (by simp)]
      simp

theorem elemsText_head (s : String) (rest : List String) (tail : List Char) :
    ∃ X, elemsText (s :: rest) tail = qC :: X := by
  cases rest with
  | nil => exact ⟨_, rfl⟩
  | cons s2 rest2 => exact ⟨_, rfl⟩

theorem pParse_val_str (g : Nat) (cs : List Char) :
    pParse (Nat.succ g) PMode.val (qC :: cs) =
      (pJString cs).map (fun p => (JVal.jstr p.1, p.2)) := by
  rw [pParse, if_pos rfl]

theorem pParse_elems_safe : ∀ (ids : List String), ids ≠ [] →
    (∀ s ∈ ids, ∀ c ∈ s.data, okChar c) →
    ∀ (acc : List JVal) (g : Nat) (tail : List Char),
      pParse (g + elemsCost ids) (PMode.elems acc) (elemsText ids tail) =
        some (JVal.jarr (acc ++ ids.map JVal.jstr), tail) := by
  intro ids
  induction ids with
  | nil => intro h; exact absurd rfl h
  | cons s rest ih =>
    intro _ hok acc g tail
    have hs : ∀ c ∈ s.data, okChar c := hok s (List.mem_cons_self s rest)
    cases rest with
    | nil =>
      show pParse (Nat.succ (Nat.succ (g + (0 + 0))))
        (PMode.elems acc) (qC :: (s.data ++ qC :: ']' :: tail)) = _
      rw [pParse, pParse_val_str, pJString_safe s hs (']' :: tail)]
      rfl
    | cons s2 rest2 =>
      obtain ⟨X, hX⟩ := elemsText_head s2 rest2 tail
      show pParse (Nat.succ (Nat.succ (g + elemsCost (s2 :: rest2))))
        (PMode.elems acc)
        (qC :: (s.data ++ qC :: ',' :: ' ' :: elemsText (s2 :: rest2) tail)) = _
      rw [pParse, pParse_val_str,
        pJString_safe s hs (',' :: ' ' :: elemsText (s2 :: rest2) tail)]
      have hsk : skipJWs (' ' :: elemsText (s2 :: rest2) tail) =
          elemsText (s2 :: rest2) tail := by
        rw [hX]
        rfl
      show pParse (Nat.succ (g + elemsCost (s2 :: rest2)))
        (PMode.elems (acc ++ [JVal.jstr s]))
        (skipJWs (' ' :: elemsText (s2 :: rest2) tail)) = _
      rw [hsk]
      have hf : Nat.succ (g + elemsCost (s2 :: rest2)) =
          (g + 1) + elemsCost (s2 :: rest2) := by omega
      rw [hf, ih (by simp) (fun t ht => hok t (List.mem_cons_of_mem s ht))
        (acc ++ [JVal.jstr s]) (g + 1) tail]
      simp

theorem pParse_val_array (ids : List String)
    (hok : ∀ s ∈ ids, ∀ c ∈ s.data, okChar c) (g : Nat) (tail : List Char) :
    pParse (g + (elemsCost ids + 1)) PMode.val ('[' :: (idsCharsR ids ++ ']' :: tail)) =
      some (JVal.jarr (ids.map JVal.jstr), tail) := by
  cases ids with
  | nil =>
    show pParse (Nat.succ (g + 0)) PMode.val ('[' :: ']' :: tail) = _
    rw [pParse]
    rfl
  | cons s rest =>
    rw [idsCharsR_text tail (s :: rest) (by simp)]
    obtain ⟨X, hX⟩ := elemsText_head s rest tail
    rw [hX]
    show pParse (Nat.succ (g + elemsCost (s :: rest))) PMode.val ('[' :: qC :: X) = _
    have hstep : pParse (Nat.succ (g + elemsCost (s :: rest))) PMode.val
        ('[' :: qC :: X) =
        pParse (g + elemsCost (s :: rest)) (PMode.elems []) (qC :: X) := by
      rw [pParse]
      rfl
    rw [hstep, ← hX, pParse_elems_safe (s :: rest) (by simp) hok [] g tail]
    simp

/-- Fuel needed by the `members` loop. -/
def linesCost : List (String × List String) → Nat
  | [] => 0
  | p :: rest => linesCost rest + (elemsCost p.2 + 2)

/-- The object text from just after the opening quote of the first key,
through the end of the serialized body. -/
def linesText : List (String × List String) → List Char
  | [] => []
  | [p] => p.1.data ++ qC :: ':' :: ' ' :: '[' :: (idsCharsR p.2 ++ ']' :: '\n' :: [rbC])
  | p :: q :: rest => p.1.data ++ qC :: ':' :: ' ' :: '[' ::
      (idsCharsR p.2 ++ ']' :: ',' :: '\n' :: ' ' :: ' ' :: qC :: linesText (q :: rest))

theorem pParse_members_safe : ∀ (m : List (String × List String)), m ≠ [] →
    (∀ p ∈ m, (∀ c ∈ p.1.data, okChar c) ∧ ∀ s ∈ p.2, ∀ c ∈ s.data, okChar c) →
    ∀ (acc : List (String × JVal)) (g : Nat),
      pParse (g + linesCost m) (PMode.members acc) (linesText m) =
        some (JVal.jobj (dictFromPairs (acc ++ favJ m)), []) := by
  intro m
  induction m with
  | nil => intro h; exact absurd rfl h
  | cons p rest ih =>
    intro _ hok acc g
    obtain ⟨hu, hids⟩ := hok p (List.mem_cons_self p rest)
    cases rest with
    | nil =>
      show pParse (Nat.succ (g + (0 + (elemsCost p.2 + 1))))
        (PMode.members acc)
        (p.1.data ++ qC :: ':' :: ' ' :: '[' ::
          (idsCharsR p.2 ++ ']' :: '\n' :: [rbC])) = _
      rw [pParse,
        pJString_safe p.1 hu
          (':' :: ' ' :: '[' :: (idsCharsR p.2 ++ ']' :: '\n' :: [rbC]))]
      show (match pParse (g + (0 + (elemsCost p.2 + 1))) PMode.val
            (skipJWs (' ' :: '[' :: (idsCharsR p.2 ++ ']' :: '\n' :: [rbC]))) with
        | none => none
        | some (v, cs3) =>
          match skipJWs cs3 with
          | [] => none
          | c :: cs4 =>
            if c = rbC then
              some (JVal.jobj (dictFromPairs (acc ++ [(p.1, v)])), cs4)
            else if c = ',' then
              match skipJWs cs4 with
              | [] => none
              | d :: cs5 =>
                if d = qC then
                  pParse (g + (0 + (elemsCost p.2 + 1)))
                    (PMode.members (acc ++ [(p.1, v)])) cs5
                else none
            else none) =
        some (JVal.jobj (dictFromPairs (acc ++ favJ [p])), [])
      rw [show skipJWs (' ' :: '[' :: (idsCharsR p.2 ++ ']' :: '\n' :: [rbC])) =
          '[' :: (idsCharsR p.2 ++ ']' :: '\n' :: [rbC]) from rfl]
      rw [show g + (0 + (elemsCost p.2 + 1)) = g + (elemsCost p.2 + 1) from by omega]
      rw [pParse_val_array p.2 hids g ('\n' :: [rbC])]
      rfl
    | cons q rest2 =>
      show pParse (Nat.succ (g + (linesCost (q :: rest2) + (elemsCost p.2 + 1))))
        (PMode.members acc)
        (p.1.data ++ qC :: ':' :: ' ' :: '[' ::
          (idsCharsR p.2 ++ ']' :: ',' :: '\n' :: ' ' :: ' ' :: qC ::
            linesText (q :: rest2))) = _
      rw [pParse,
        pJString_safe p.1 hu
          (':' :: ' ' :: '[' :: (idsCharsR p.2 ++ ']' :: ',' :: '\n' :: ' ' :: ' ' ::
            qC :: linesText (q :: rest2)))]
      show (match pParse (g + (linesCost (q :: rest2) + (elemsCost p.2 + 1))) PMode.val
            (skipJWs (' ' :: '[' :: (idsCharsR p.2 ++ ']' :: ',' :: '\n' :: ' ' :: ' ' ::
              qC :: linesText (q :: rest2)))) with
        | none => none
        | some (v, cs3) =>
          match skipJWs cs3 with
          | [] => none
          | c :: cs4 =>
            if c = rbC then
              some (JVal.jobj (dictFromPairs (acc ++ [(p.1, v)])), cs4)
            else if c = ',' then
              match skipJWs cs4 with
              | [] => none
              | d :: cs5 =>
                if d = qC then
                  pParse (g + (linesCost (q :: rest2) + (elemsCost p.2 + 1)))
                    (PMode.members (acc ++ [(p.1, v)])) cs5
                else none
            else none) =
        some (JVal.jobj (dictFromPairs (acc ++ favJ (p :: q :: rest2))), [])
      rw [show skipJWs (' ' :: '[' :: (idsCharsR p.2 ++ ']' :: ',' :: '\n' :: ' ' ::
          ' ' :: qC :: linesText (q :: rest2))) =
          '[' :: (idsCharsR p.2 ++ ']' :: ',' :: '\n' :: ' ' :: ' ' :: qC ::
            linesText (q :: rest2)) from rfl]
      rw [show g + (linesCost (q :: rest2) + (elemsCost p.2 + 1)) =
          (g + linesCost (q :: rest2)) + (elemsCost p.2 + 1) from by omega]
      rw [pParse_val_array p.2 hids (g + linesCost (q :: rest2))
        (',' :: '\n' :: ' ' :: ' ' :: qC :: linesText (q :: rest2))]
      show (match skipJWs (',' :: '\n' :: ' ' :: ' ' :: qC :: linesText (q :: rest2)) with
        | [] => none
        | c :: cs4 =>
          if c = rbC then
            some (JVal.jobj (dictFromPairs
              (acc ++ [(p.1, JVal.jarr (p.2.map JVal.jstr))])), cs4)
          else if c = ',' then
            match skipJWs cs4 with
            | [] => none
            | d :: cs5 =>
              if d = qC then
                pParse ((g + linesCost (q :: rest2)) + (elemsCost p.2 + 1))
                  (PMode.members (acc ++ [(p.1, JVal.jarr (p.2.map JVal.jstr))])) cs5
              else none
          else none) =
        some (JVal.jobj (dictFromPairs (acc ++ favJ (p :: q :: rest2))), [])
      rw [show skipJWs (',' :: '\n' :: ' ' :: ' ' :: qC :: linesText (q :: rest2)) =
          ',' :: '\n' :: ' ' :: ' ' :: qC :: linesText (q :: rest2) from rfl]
      show (match skipJWs ('\n' :: ' ' :: ' ' :: qC :: linesText (q :: rest2)) with
        | [] => none
        | d :: cs5 =>
          if d = qC then
            pParse ((g + linesCost (q :: rest2)) + (elemsCost p.2 + 1))
              (PMode.members (acc ++ [(p.1, JVal.jarr (p.2.map JVal.jstr))])) cs5
          else none) =
        some (JVal.jobj (dictFromPairs (acc ++ favJ (p :: q :: rest2))), [])
      rw [show skipJWs ('\n' :: ' ' :: ' ' :: qC :: linesText (q :: rest2)) =
          qC :: linesText (q :: rest2) from rfl]
      show pParse ((g + linesCost (q :: rest2)) + (elemsCost p.2 + 1))
          (PMode.members (acc ++ [(p.1, JVal.jarr (p.2.map JVal.jstr))]))
          (linesText (q :: rest2)) =
        some (JVal.jobj (dictFromPairs (acc ++ favJ (p :: q :: rest2))), [])
      rw [show (g + linesCost (q :: rest2)) + (elemsCost p.2 + 1) =
          (g + (elemsCost p.2 + 1)) + linesCost (q :: rest2) from by omega]
      rw [ih (by simp) (fun r hr => hok r (List.mem_cons_of_mem p hr))
        (acc ++ [(p.1, JVal.jarr (p.2.map JVal.jstr))]) (g + (elemsCost p.2 + 1))]
      simp [favJ]

theorem linesSep_text : ∀ (m : List (String × List String)), m ≠ [] →
    linesSep m ++ ['\n', rbC] = ' ' :: ' ' :: qC :: linesText m := by
  intro m
  induction m with
  | nil => intro h; exact absurd rfl h
  | cons p rest ih =>
    intro _
    cases rest with
    | nil =>
      show lineChars p.1 p.2 ++ ['\n', rbC] = _
      rw [lineChars, idsChars_eq_R, linesText]
      simp
    | cons q rest2 =>
      show (lineChars p.1 p.2 ++ ',' :: '\n' :: linesSep (q :: rest2)) ++ ['\n', rbC]
        = _
      rw [lineChars, idsChars_eq_R, linesText, ← ih (by simp)]
      simp

theorem elemsCost_le : ∀ (ids : List String), elemsCost ids ≤ (idsCharsR ids).length := by
  intro ids
  induction ids with
  | nil => exact Nat.le_refl 0
  | cons s rest ih =>
    cases rest with
    | nil =>
      show elemsCost [] + 2 ≤ (qC :: (s.data ++ [qC])).length
      simp [elemsCost]
    | cons s2 rest2 =>
      show elemsCost (s2 :: rest2) + 2 ≤
        (qC :: (s.data ++ [qC, ',', ' '] ++ idsCharsR (s2 :: rest2))).length
      simp only [List.length_cons, List.length_append]
      omega

theorem linesCost_le : ∀ (m : List (String × List String)),
    linesCost m ≤ (linesSep m).length := by
  intro m
  induction m with
  | nil => exact Nat.le_refl 0
  | cons p rest ih =>
    have hline : elemsCost p.2 + 2 ≤ (lineChars p.1 p.2).length := by
      have := elemsCost_le p.2
      rw [lineChars, idsChars_eq_R]
      simp only [List.length_cons, List.length_append, List.length_singleton]
      omega
    cases rest with
    | nil =>
      show linesCost [] + (elemsCost p.2 + 2) ≤ (lineChars p.1 p.2).length
      simpa [linesCost] using hline
    | cons q rest2 =>
      show linesCost (q :: rest2) + (elemsCost p.2 + 2) ≤
        (lineChars p.1 p.2 ++ ',' :: '\n' :: linesSep (q :: rest2)).length
      simp only [List.length_append, List.length_cons]
      omega

theorem dictInsert_fresh (d : List (String × JVal)) (k : String) (v : JVal)
    (h : ∀ q ∈ d, q.1 ≠ k) : dictInsert d k v = d ++ [(k, v)] := by
  unfold dictInsert
  rw [if_neg]
  simp only [List.any_eq_true, not_exists, not_and]
  intro q hq
  simp only [decide_eq_true_eq]
  exact h q hq

theorem foldl_dictInsert_fresh : ∀ (ps : List (String × JVal))
    (d : List (String × JVal)),
    (∀ p ∈ ps, ∀ q ∈ d, q.1 ≠ p.1) → (ps.map Prod.fst).Nodup →
    ps.foldl (fun d p => dictInsert d p.1 p.2) d = d ++ ps := by
  intro ps
  induction ps with
  | nil => intro d _ _; simp
  | cons p rest ih =>
    intro d hfresh hnd
    show (rest.foldl (fun d p => dictInsert d p.1 p.2) (dictInsert d p.1 p.2)) = _
    rw [dictInsert_fresh d p.1 p.2
      (fun q hq => hfresh p (List.mem_cons_self p rest) q hq)]
    rw [ih (d ++ [(p.1, p.2)]) ?fresh ?nd]
    · simp
    case fresh =>
      intro r hr q hq
      rcases List.mem_append.mp hq with hq1 | hq1
      · exact hfresh r (List.mem_cons_of_mem p hr) q hq1
      · rw [List.mem_singleton] at hq1
        subst hq1
        show p.1 ≠ r.1
        rw [List.map_cons, List.nodup_cons] at hnd
        intro he
        exact hnd.1 (he ▸ List.mem_map_of_mem Prod.fst hr)
    case nd =>
      rw [List.map_cons, List.nodup_cons] at hnd
      exact hnd.2

theorem dictFromPairs_nodup (ps : List (String × JVal))
    (h : (ps.map Prod.fst).Nodup) : dictFromPairs ps = ps := by
  unfold dictFromPairs
  rw [foldl_dictInsert_fresh ps [] (fun p _ q hq => absurd hq (List.not_mem_nil q)) h]
  simp

theorem favJ_keys (m : List (String × List String)) :
    (favJ m).map Prod.fst = m.map Prod.fst := by
  unfold favJ
  rw [List.map_map]
  rfl

theorem jsonLoadsC_bodyCore (m : List (String × List String)) (hm : SafeMap m) :
    jsonLoadsC (bodyCore m) = some (JVal.jobj (favJ m)) := by
  cases m with
  | nil => rfl
  | cons p rest =>
    have hok : ∀ r ∈ p :: rest,
        (∀ c ∈ r.1.data, okChar c) ∧ ∀ s ∈ r.2, ∀ c ∈ s.data, okChar c := by
      intro r hr
      obtain ⟨h1, h2⟩ := hm.2 r hr
      exact ⟨h1.1, fun s hs => (h2 s hs).1⟩
    have htext : bodyCore (p :: rest) =
        lbC :: '\n' :: (' ' :: ' ' :: qC :: linesText (p :: rest)) := by
      show lbC :: '\n' :: (linesSep (p :: rest) ++ ['\n', rbC]) = _
      rw [linesSep_text (p :: rest) (by simp)]
    unfold jsonLoadsC
    rw [htext]
    have h2 : (linesSep (p :: rest)).length + 2 = (linesText (p :: rest)).length + 3 := by
      have := congrArg List.length (linesSep_text (p :: rest) (by simp))
      simpa using this
    have hparse : pParse
        ((lbC :: '\n' :: (' ' :: ' ' :: qC :: linesText (p :: rest))).length + 1)
        PMode.val (skipJWs (lbC :: '\n' :: (' ' :: ' ' :: qC :: linesText (p :: rest)))) =
        some (JVal.jobj (dictFromPairs (favJ (p :: rest))), []) := by
      rw [show skipJWs (lbC :: '\n' :: (' ' :: ' ' :: qC :: linesText (p :: rest))) =
          lbC :: '\n' :: (' ' :: ' ' :: qC :: linesText (p :: rest)) from rfl]
      show pParse ((lbC :: '\n' :: (' ' :: ' ' :: qC :: linesText (p :: rest))).length)
          (PMode.members []) (linesText (p :: rest)) =
        some (JVal.jobj (dictFromPairs (favJ (p :: rest))), [])
      have hlen : (lbC :: '\n' :: (' ' :: ' ' :: qC :: linesText (p :: rest))).length =
          ((lbC :: '\n' :: (' ' :: ' ' :: qC :: linesText (p :: rest))).length -
            linesCost (p :: rest)) + linesCost (p :: rest) := by
        have h1 := linesCost_le (p :: rest)
        simp only [List.length_cons]
        omega
      rw [hlen, pParse_members_safe (p :: rest) (by simp) hok [] _]
      rfl
    rw [hparse]
    have hkeys : ((favJ (p :: rest)).map Prod.fst).Nodup := by
      rw [favJ_keys]
      exact hm.1
    show some (JVal.jobj (dictFromPairs (favJ (p :: rest)))) =
      some (JVal.jobj (favJ (p :: rest)))
    rw [dictFromPairs_nodup _ hkeys]

/-- Master round-trip: the module text `update_user_favorites` builds for a
safe mapping reparses to exactly that mapping, with no error. -/
theorem get_all_favorites_serialized (m : List (String × List String)) (ts : String)
    (hm : SafeMap m) (hts : SafeTs ts) :
    get_all_favorites (StoreSt.ok (String.mk
      (headerText ts ++ jsContentOf (entriesChars m)))) = (favJ m, none) := by
  have h : parseFavContent (String.mk
      (headerText ts ++ jsContentOf (entriesChars m))) = favJ m := by
    unfold parseFavContent
    rw [show (String.mk (headerText ts ++ jsContentOf (entriesChars m))).data =
        headerText ts ++ jsContentOf (entriesChars m) from rfl]
    rw [findFav_serialized ts m hts (innerOf_no_rbsemi m hm)]
    show (match jsonLoadsC (rtc (sq2dq (rlc (bodyCore m)))) with
      | some (JVal.jobj kvs) => kvs
      | _ => []) = favJ m
    rw [rlc_id (bodyCore_no_slashslash m hm), sq2dq_id (bodyCore_no_ap m hm),
      rtc_id (bodyCore_no_cb m hm), jsonLoadsC_bodyCore m hm]
  show (parseFavContent (String.mk (headerText ts ++ jsContentOf (entriesChars m))),
    (none : Option String)) = (favJ m, none)
  rw [h]

/-- C10 counterexample: the id `a,]` meets the claim's own safety
conditions (no quotes, backslashes, `//` or brace-semicolon), the
serializer embeds it verbatim, but the reparse returns `a]` — the
trailing-comma regex fired inside the string literal. -/
theorem favorites_roundtrip_cx :
    ClaimSafeMap [("u", ["a,]"])] ∧
    serializeEntries (favJ [("u", ["a,]"])]) = some (entriesChars [("u", ["a,]"])]) ∧
    (get_all_favorites (StoreSt.ok (String.mk (headerText "2024-01-01 00:00:00" ++
      jsContentOf (entriesChars [("u", ["a,]"])]))))).1.map
        (fun p => (p.1, toStrList p.2)) = [("u", some ["a]"])] ∧
    ("a]" : String) ≠ "a,]" :=
  ⟨by decide, rfl, by rfl, by decide⟩

/-- C10 (amended): for a favorites mapping whose user-ids and song-ids are
made of printable characters other than quote/apostrophe/backslash and
contain no `//` or `\x7d;` substrings and no comma-whitespace-bracket
pattern, the serializer of `update_user_favorites` emits a module text
that `get_all_favorites` parses back to exactly the original mapping. -/
theorem favorites_roundtrip (m : List (String × List String)) (ts : String)
    (hm : SafeMap m) (hts : SafeTs ts) :
    serializeEntries (favJ m) = some (entriesChars m) ∧
    get_all_favorites (StoreSt.ok (String.mk
      (headerText ts ++ jsContentOf (entriesChars m)))) = (favJ m, none) :=
  ⟨serializeEntries_favJ m, get_all_favorites_serialized m ts hm hts⟩

theorem favorites_roundtrip_witness :
    SafeMap [("u1", ["abc", "xyz"])] ∧ SafeTs "2024-01-02 03:04:05" ∧
    (serializeEntries (favJ [("u1", ["abc", "xyz"])]) =
      some (entriesChars [("u1", ["abc", "xyz"])]) ∧
     get_all_favorites (StoreSt.ok (String.mk (headerText "2024-01-02 03:04:05" ++
       jsContentOf (entriesChars [("u1", ["abc", "xyz"])])))) =
       (favJ [("u1", ["abc", "xyz"])], none)) :=
  ⟨by decide, by decide, favorites_roundtrip _ _ (by decide) (by decide)⟩

/-! ### Map-level view of the favorites store for the add/remove round trip -/

/-- `all_favs.get(user_id, [])` at the string-list level. -/
def mGet (m : List (String × List String)) (u : String) : List String :=
  match m.lookup u with
  | some ids => ids
  | none => []

/-- `all_favs[user_id] = favorites_list` at the string-list level. -/
def mUpd (m : List (String × List String)) (u : String) (ids : List String) :
    List (String × List String) :=
  if m.any (fun p => p.1 = u) then
    m.map (fun p => if p.1 = u then (u, ids) else p)
  else m ++ [(u, ids)]

theorem dictGetD_favJ (m : List (String × List String)) (u : String) :
    dictGetD (favJ m) u (JVal.jarr []) = JVal.jarr ((mGet m u).map JVal.jstr) := by
  induction m with
  | nil => rfl
  | cons p rest ih =>
    unfold dictGetD mGet at ih ⊢
    show (match List.lookup u ((p.1, JVal.jarr (p.2.map JVal.jstr)) :: favJ rest) with
      | some v => v
      | none => JVal.jarr []) = _
    rw [List.lookup]
    cases hb : u == p.1 with
    | true =>
      show JVal.jarr (p.2.map JVal.jstr) = _
      have : List.lookup u (p :: rest) = some p.2 := by
        rw [List.lookup, hb]
      rw [this]
    | false =>
      have : List.lookup u (p :: rest) = List.lookup u rest := by
        rw [List.lookup, hb]
      rw [this]
      exact ih

theorem favJ_any (m : List (String × List String)) (u : String) :
    (favJ m).any (fun p => p.1 = u) = m.any (fun p => p.1 = u) := by
  induction m with
  | nil => rfl
  | cons p rest ih =>
    unfold favJ at ih ⊢
    rw [List.map_cons, List.any_cons, ih, List.any_cons]

theorem favJ_mUpd (m : List (String × List String)) (u : String) (ids : List String) :
    favJ (mUpd m u ids) = dictInsert (favJ m) u (JVal.jarr (ids.map JVal.jstr)) := by
  unfold mUpd dictInsert
  rw [favJ_any]
  by_cases hany : m.any (fun p => p.1 = u) = true
  · rw [if_pos hany, if_pos hany]
    unfold favJ
    rw [List.map_map, List.map_map]
    apply List.map_congr_left
    intro p _
    by_cases hp : p.1 = u
    · simp [hp]
    · simp [hp]
  · rw [if_neg hany, if_neg hany]
    unfold favJ
    rw [List.map_append]
    rfl

theorem lookup_map_upd (u : String) (ids : List String) :
    ∀ (m : List (String × List String)),
      List.lookup u (m.map (fun p => if p.1 = u then (u, ids) else p)) =
        (List.lookup u m).map (fun _ => ids) := by
  intro m
  induction m with
  | nil => rfl
  | cons p rest ih =>
    by_cases hp : p.1 = u
    · rw [List.map_cons, if_pos hp]
      show List.lookup u ((u, ids) :: _) = _
      rw [List.lookup, List.lookup]
      have hb : (u == p.1) = true := by
        rw [beq_iff_eq]; exact hp.symm
      have hb2 : (u == u) = true := by rw [beq_iff_eq]
      rw [hb, hb2]
      rfl
    · rw [List.map_cons, if_neg hp]
      rw [List.lookup, List.lookup]
      have hb : (u == p.1) = false := by
        rw [beq_eq_false_iff_ne]
        exact fun he => hp he.symm
      rw [hb, ih]

theorem lookup_of_any_true (u : String) : ∀ (m : List (String × List String)),
    m.any (fun p => p.1 = u) = true → ∃ ids, List.lookup u m = some ids := by
  intro m
  induction m with
  | nil => intro h; cases h
  | cons p rest ih =>
    intro h
    by_cases hp : p.1 = u
    · refine ⟨p.2, ?_⟩
      rw [List.lookup]
      have hb : (u == p.1) = true := by rw [beq_iff_eq]; exact hp.symm
      rw [hb]
    · rw [List.any_cons] at h
      have h2 : rest.any (fun p => p.1 = u) = true := by
        rcases Bool.or_eq_true_iff.mp h with h1 | h1
        · exact absurd (of_decide_eq_true h1) hp
        · exact h1
      obtain ⟨ids, hids⟩ := ih h2
      refine ⟨ids, ?_⟩
      rw [List.lookup]
      have hb : (u == p.1) = false := by
        rw [beq_eq_false_iff_ne]
        exact fun he => hp he.symm
      rw [hb, hids]

theorem lookup_of_any_false (u : String) : ∀ (m : List (String × List String)),
    m.any (fun p => p.1 = u) = false → List.lookup u m = none := by
  intro m
  induction m with
  | nil => intro _; rfl
  | cons p rest ih =>
    intro h
    rw [List.any_cons] at h
    rcases Bool.or_eq_false_iff.mp h with ⟨h1, h2⟩
    rw [List.lookup]
    have hb : (u == p.1) = false := by
      rw [beq_eq_false_iff_ne]
      intro he
      rw [← he] at h1
      simp at h1
    rw [hb, ih h2]

theorem lookup_append_none (u : String) (l2 : List (String × List String)) :
    ∀ (m : List (String × List String)), List.lookup u m = none →
      List.lookup u (m ++ l2) = List.lookup u l2 := by
  intro m
  induction m with
  | nil => intro _; rfl
  | cons p rest ih =>
    intro h
    rw [List.lookup] at h
    cases hb : u == p.1 with
    | true => rw [hb] at h; cases h
    | false =>
      rw [hb] at h
      show List.lookup u (p :: (rest ++ l2)) = _
      rw [List.lookup, hb, ih h]

theorem mGet_mUpd_same (m : List (String × List String)) (u : String)
    (ids : List String) : mGet (mUpd m u ids) u = ids := by
  unfold mGet mUpd
  by_cases hany : m.any (fun p => p.1 = u) = true
  · rw [if_pos hany, lookup_map_upd]
    obtain ⟨ids0, h0⟩ := lookup_of_any_true u m hany
    rw [h0]
    rfl
  · rw [if_neg hany,
      lookup_append_none u _ m (lookup_of_any_false u m (Bool.not_eq_true _ |>.mp hany))]
    rw [List.lookup]
    have hb : (u == u) = true := by rw [beq_iff_eq]
    rw [hb]

theorem mUpd_keys_insert (m : List (String × List String)) (u : String)
    (ids : List String) (hany : m.any (fun p => p.1 = u) = true) :
    (mUpd m u ids).map Prod.fst = m.map Prod.fst := by
  unfold mUpd
  rw [if_pos hany, List.map_map]
  apply List.map_congr_left
  intro p _
  by_cases hp : p.1 = u
  · simp [hp]
  · simp [hp]

theorem SafeMap_mUpd (m : List (String × List String)) (u : String)
    (ids : List String) (hm : SafeMap m) (hu : SafeStr u)
    (hids : ∀ s ∈ ids, SafeStr s) : SafeMap (mUpd m u ids) := by
  constructor
  · by_cases hany : m.any (fun p => p.1 = u) = true
    · rw [mUpd_keys_insert m u ids hany]
      exact hm.1
    · unfold mUpd
      rw [if_neg hany, List.map_append]
      rw [List.nodup_append]
      refine ⟨hm.1, List.nodup_singleton u, ?_⟩
      intro k hk hk2
      rw [List.map_singleton, List.mem_singleton] at hk2
      subst hk2
      obtain ⟨p, hp, hpk⟩ := List.mem_map.mp hk
      apply hany
      rw [List.any_eq_true]
      exact ⟨p, hp, by simp [hpk]⟩
  · intro p hp
    unfold mUpd at hp
    by_cases hany : m.any (fun p => p.1 = u) = true
    · rw [if_pos hany] at hp
      obtain ⟨q, hq, hqp⟩ := List.mem_map.mp hp
      by_cases hqu : q.1 = u
      · rw [if_pos hqu] at hqp
        subst hqp
        exact ⟨hu, hids⟩
      · rw [if_neg hqu] at hqp
        subst hqp
        exact hm.2 q hq
    · rw [if_neg hany] at hp
      rcases List.mem_append.mp hp with h1 | h1
      · exact hm.2 p h1
      · rw [List.mem_singleton] at h1
        subst h1
        exact ⟨hu, hids⟩

theorem lookup_mem (u : String) : ∀ (m : List (String × List String)) (ids : List String),
    List.lookup u m = some ids → (u, ids) ∈ m := by
  intro m
  induction m with
  | nil => intro ids h; cases h
  | cons p rest ih =>
    intro ids h
    rw [List.lookup] at h
    cases hb : u == p.1 with
    | true =>
      rw [hb] at h
      injection h with h2
      have he : u = p.1 := beq_iff_eq.mp hb
      have : (u, ids) = p := by
        rw [he, ← h2]
      rw [this]
      exact List.mem_cons_self p rest
    | false =>
      rw [hb] at h
      exact List.mem_cons_of_mem p (ih ids h)

theorem mGet_safe (m : List (String × List String)) (u : String) (hm : SafeMap m) :
    ∀ s ∈ mGet m u, SafeStr s := by
  unfold mGet
  cases h : List.lookup u m with
  | none => intro s hs; cases hs
  | some ids =>
    intro s hs
    exact (hm.2 (u, ids) (lookup_mem u m ids h)).2 s hs

theorem pyInStr_mapped (sid : String) (L : List String) :
    pyInStr sid (JVal.jarr (L.map JVal.jstr)) =
      some (L.any (fun t => t = sid)) := by
  show some ((L.map JVal.jstr).any (fun v =>
      match v with
      | JVal.jstr t => t = sid
      | _ => false)) = some (L.any (fun t => t = sid))
  congr 1
  induction L with
  | nil => rfl
  | cons t rest ih =>
    rw [List.map_cons, List.any_cons, List.any_cons, ih]

theorem any_eq_sid_false (sid : String) (L : List String) (h : sid ∉ L) :
    L.any (fun t => t = sid) = false := by
  rw [List.any_eq_false]
  intro t ht
  simp only [decide_eq_true_eq]
  intro he
  exact h (he ▸ ht)

theorem removeFirst_mapped (sid : String) : ∀ (L : List String),
    (∀ t ∈ L, t ≠ sid) →
    removeFirstStr ((L ++ [sid]).map JVal.jstr) sid = L.map JVal.jstr := by
  intro L
  induction L with
  | nil =>
    intro _
    show removeFirstStr [JVal.jstr sid] sid = []
    rw [removeFirstStr, if_pos rfl]
  | cons t rest ih =>
    intro h
    show removeFirstStr (JVal.jstr t :: (rest ++ [sid]).map JVal.jstr) sid = _
    rw [removeFirstStr, if_neg (h t (List.mem_cons_self t rest)),
      ih (fun r hr => h r (List.mem_cons_of_mem t hr))]
    rfl

theorem guf_serialized (m : List (String × List String)) (ts : String) (uid : String)
    (hm : SafeMap m) (hts : SafeTs ts) :
    get_user_favorites (StoreSt.ok (String.mk
      (headerText ts ++ jsContentOf (entriesChars m)))) uid =
      (JVal.jarr ((mGet m uid).map JVal.jstr), none) := by
  unfold get_user_favorites
  rw [get_all_favorites_serialized m ts hm hts]
  show (dictGetD (favJ m) uid (JVal.jarr []), (none : Option String)) = _
  rw [dictGetD_favJ]

theorem update_serialized (m : List (String × List String)) (ts0 ts : String)
    (uid : String) (ids : List String) (hm : SafeMap m) (hts0 : SafeTs ts0) :
    update_user_favorites (StoreSt.ok (String.mk
        (headerText ts0 ++ jsContentOf (entriesChars m))))
      uid (JVal.jarr (ids.map JVal.jstr)) ts =
      ((true, none), StoreSt.ok (String.mk
        (headerText ts ++ jsContentOf (entriesChars (mUpd m uid ids))))) := by
  unfold update_user_favorites
  rw [get_all_favorites_serialized m ts0 hm hts0]
  show (match serializeEntries (dictInsert (favJ m) uid (JVal.jarr (ids.map JVal.jstr))) with
    | none => ((false, some "argument of type is not iterable"),
        StoreSt.ok (String.mk (headerText ts0 ++ jsContentOf (entriesChars m))))
    | some entries => ((true, none),
        StoreSt.ok (String.mk (headerText ts ++ jsContentOf entries)))) = _
  rw [← favJ_mUpd, serializeEntries_favJ]

theorem add_serialized (m : List (String × List String)) (uid sid ts0 ts1 : String)
    (hm : SafeMap m) (hts0 : SafeTs ts0) (hsne : sid ≠ "")
    (hnotin : sid ∉ mGet m uid) :
    add_favorite (StoreSt.ok (String.mk
        (headerText ts0 ++ jsContentOf (entriesChars m)))) uid (some sid) ts1 =
      (⟨200, JVal.jobj [("message", JVal.jstr "Added to favorites"),
          ("user_id", JVal.jstr uid), ("count", natJ ((mGet m uid).length + 1)),
          ("favorites", JVal.jarr ((mGet m uid).map JVal.jstr ++ [JVal.jstr sid]))]⟩,
        StoreSt.ok (String.mk (headerText ts1 ++
          jsContentOf (entriesChars (mUpd m uid (mGet m uid ++ [sid])))))) := by
  have hguf := guf_serialized m ts0 uid hm hts0
  have hupd := update_serialized m ts0 ts1 uid (mGet m uid ++ [sid]) hm hts0
  simp only [List.map_append, List.map_cons, List.map_nil] at hupd
  have hin : pyInStr sid (JVal.jarr ((mGet m uid).map JVal.jstr)) = some false := by
    rw [pyInStr_mapped, any_eq_sid_false sid _ hnotin]
  simp [add_favorite, hguf, truthyE, hsne, hin, pyAppendStr, hupd, pyLen, natJ]

theorem remove_serialized (M : List (String × List String)) (uid sid tsA ts2 : String)
    (hM : SafeMap M) (htsA : SafeTs tsA) (hsne : sid ≠ "")
    (L : List String) (hLget : mGet M uid = L ++ [sid]) (hnotin : sid ∉ L) :
    remove_favorite (StoreSt.ok (String.mk
        (headerText tsA ++ jsContentOf (entriesChars M)))) uid (some sid) ts2 =
      (⟨200, JVal.jobj [("message", JVal.jstr "Removed from favorites"),
          ("user_id", JVal.jstr uid), ("count", natJ L.length),
          ("favorites", JVal.jarr (L.map JVal.jstr))]⟩,
        StoreSt.ok (String.mk (headerText ts2 ++
          jsContentOf (entriesChars (mUpd M uid L))))) := by
  have hguf := guf_serialized M tsA uid hM htsA
  rw [hLget] at hguf
  have hupd := update_serialized M tsA ts2 uid L hM htsA
  have hin : pyInStr sid (JVal.jarr ((L ++ [sid]).map JVal.jstr)) = some true := by
    rw [pyInStr_mapped]
    simp
  have hany := Option.some.inj (pyInStr_mapped sid (L ++ [sid]))
  have hrm : pyRemoveStr (JVal.jarr ((L ++ [sid]).map JVal.jstr)) sid =
      some (JVal.jarr (L.map JVal.jstr)) := by
    show (if ((L ++ [sid]).map JVal.jstr).any (fun v =>
        match v with
        | JVal.jstr t => t = sid
        | _ => false) = true then
        some (JVal.jarr (removeFirstStr ((L ++ [sid]).map JVal.jstr) sid))
      else none) = _
    rw [hany]
    rw [show ((L ++ [sid]).any (fun t => t = sid)) = true from by simp]
    show some (JVal.jarr (removeFirstStr ((L ++ [sid]).map JVal.jstr) sid)) = _
    rw [removeFirst_mapped sid L (fun t ht he => hnotin (he ▸ ht))]
  simp only [List.map_append, List.map_cons, List.map_nil] at hin hrm
  simp [remove_favorite, hguf, truthyE, hsne, hin, hrm, hupd, pyLen, natJ]

/-- C2 (amended): starting from the serialized form of a safe favorites
mapping, when the song-id is not already among the user's stored
favorites, a successful add (200) followed by a successful remove (200)
of the same song-id restores the user's stored favorites list to its
pre-add state.  (When the id is already present, the pair does not round
trip: see the counterexample.) -/
theorem add_remove_roundtrip (m : List (String × List String))
    (uid sid ts0 ts1 ts2 : String)
    (hm : SafeMap m) (hu : SafeStr uid) (hsid : SafeStr sid) (hsne : sid ≠ "")
    (hts0 : SafeTs ts0) (hts1 : SafeTs ts1) (hts2 : SafeTs ts2)
    (hnotin : sid ∉ mGet m uid) :
    (add_favorite (StoreSt.ok (String.mk
        (headerText ts0 ++ jsContentOf (entriesChars m)))) uid (some sid) ts1).1.status
      = 200 ∧
    (remove_favorite (add_favorite (StoreSt.ok (String.mk
        (headerText ts0 ++ jsContentOf (entriesChars m)))) uid (some sid) ts1).2
        uid (some sid) ts2).1.status = 200 ∧
    (get_user_favorites (remove_favorite (add_favorite (StoreSt.ok (String.mk
        (headerText ts0 ++ jsContentOf (entriesChars m)))) uid (some sid) ts1).2
        uid (some sid) ts2).2 uid).1 =
      (get_user_favorites (StoreSt.ok (String.mk
        (headerText ts0 ++ jsContentOf (entriesChars m)))) uid).1 := by
  have hids1 : ∀ s ∈ mGet m uid ++ [sid], SafeStr s := by
    intro s hs
    rcases List.mem_append.mp hs with h1 | h1
    · exact mGet_safe m uid hm s h1
    · rw [List.mem_singleton] at h1
      subst h1
      exact hsid
  have hm1 : SafeMap (mUpd m uid (mGet m uid ++ [sid])) :=
    SafeMap_mUpd m uid _ hm hu hids1
  have hm2 : SafeMap (mUpd (mUpd m uid (mGet m uid ++ [sid])) uid (mGet m uid)) :=
    SafeMap_mUpd _ uid _ hm1 hu (mGet_safe m uid hm)
  have hadd := add_serialized m uid sid ts0 ts1 hm hts0 hsne hnotin
  have hrem := remove_serialized (mUpd m uid (mGet m uid ++ [sid])) uid sid ts1 ts2
    hm1 hts1 hsne (mGet m uid) (mGet_mUpd_same m uid _) hnotin
  rw [hadd]
  dsimp only
  rw [hrem]
  dsimp only
  rw [guf_serialized _ ts2 uid hm2 hts2, guf_serialized m ts0 uid hm hts0]
  rw [mGet_mUpd_same]
  exact ⟨rfl, rfl, rfl⟩

theorem add_remove_roundtrip_witness :
    SafeMap [("u", ["a"])] ∧ SafeStr "u" ∧ SafeStr "b" ∧ ("b" : String) ≠ "" ∧
    SafeTs "2024-01-01 00:00:00" ∧ "b" ∉ mGet [("u", ["a"])] "u" ∧
    ((add_favorite (StoreSt.ok (String.mk (headerText "2024-01-01 00:00:00" ++
        jsContentOf (entriesChars [("u", ["a"])])))) "u" (some "b")
        "2024-01-01 00:00:00").1.status = 200 ∧
     (remove_favorite (add_favorite (StoreSt.ok (String.mk
        (headerText "2024-01-01 00:00:00" ++
          jsContentOf (entriesChars [("u", ["a"])])))) "u" (some "b")
        "2024-01-01 00:00:00").2 "u" (some "b") "2024-01-01 00:00:00").1.status = 200 ∧
     (get_user_favorites (remove_favorite (add_favorite (StoreSt.ok (String.mk
        (headerText "2024-01-01 00:00:00" ++
          jsContentOf (entriesChars [("u", ["a"])])))) "u" (some "b")
        "2024-01-01 00:00:00").2 "u" (some "b") "2024-01-01 00:00:00").2 "u").1 =
      (get_user_favorites (StoreSt.ok (String.mk (headerText "2024-01-01 00:00:00" ++
        jsContentOf (entriesChars [("u", ["a"])])))) "u").1) :=
  ⟨by decide, by decide, by decide, by decide, by decide, by decide,
   add_remove_roundtrip [("u", ["a"])] "u" "b"
     "2024-01-01 00:00:00" "2024-01-01 00:00:00" "2024-01-01 00:00:00"
     (by decide) (by decide) (by decide) (by decide)
     (by decide) (by decide) (by decide) (by decide)⟩
